import Mathlib

/-!
Verification of the billjs calculation engine (src/index.ts) against its
natural-language specification.

Shallow embedding notes:
* JavaScript numbers are modelled as exact rationals (ℚ).  The source rounds
  with Math.round((v + Number.EPSILON) * 10^d) / 10^d; over exact rationals
  the EPSILON fudge is a no-op, so `roundTo v d = ⌊v * 10^d + 1/2⌋ / 10^d`
  (round half towards +∞, exactly Math.round).
* `decimalPlaces` and `decimalInternalPrecision` are natural numbers (the
  validator restricts them to 0..10 resp. 0..15; fractional values would make
  `Math.pow(10, d)` irrational and are not exercised by any claim).
* JS truthiness is modelled explicitly where the source relies on it:
  `t.threshold &&` (threshold 0 disables the check), `config.taxPreset &&`
  and `charge.applyOn &&` (empty string behaves as absent),
  `config.exchangeRates?.[c]` (rate 0 behaves as missing).
* Human-readable formula strings are modelled structurally: the tax breakdown
  carries a `below : Bool` marker (the source writes a "Below threshold"
  formula string), the per-item tax entries carry an `exempt : Bool` marker,
  and both keep the unrounded amount next to the display-rounded one.
* `billingId`, `timestamp`, `meta` and the formula-step string list are
  omitted from the result: they are nondeterministic identifiers or pure
  string rendering, and no claim touches them.
-/

namespace Billjs

/-- Mirrors `roundTo` in src/index.ts: round to `d` decimal places,
half towards +∞ (JS Math.round). -/
def roundTo (v : ℚ) (d : ℕ) : ℚ := (⌊v * 10 ^ d + 1/2⌋ : ℚ) / 10 ^ d

/-- Mirrors `internalRound` in src/index.ts (same rounding, internal
precision). -/
def internalRound (v : ℚ) (d : ℕ) : ℚ := roundTo v d

theorem roundTo_nonneg (v : ℚ) (d : ℕ) (h : 0 ≤ v) : 0 ≤ roundTo v d := by
  unfold roundTo
  apply div_nonneg _ (by positivity)
  have h1 : (0:ℚ) ≤ v * 10 ^ d + 1/2 := by positivity
  exact_mod_cast Int.floor_nonneg.mpr h1

theorem roundTo_mono (v w : ℚ) (d : ℕ) (h : v ≤ w) : roundTo v d ≤ roundTo w d := by
  unfold roundTo
  have h1 : v * 10 ^ d + 1/2 ≤ w * 10 ^ d + 1/2 := by
    have : v * 10 ^ d ≤ w * 10 ^ d := by
      apply mul_le_mul_of_nonneg_right h (by positivity)
    linarith
  have h2 : (⌊v * 10 ^ d + 1/2⌋ : ℚ) ≤ (⌊w * 10 ^ d + 1/2⌋ : ℚ) := by
    exact_mod_cast Int.floor_le_floor h1
  exact (div_le_div_iff_of_pos_right (by positivity)).mpr h2

/-- A rational lying exactly on the grid of `d`-decimal values. -/
def IsGrid (d : ℕ) (v : ℚ) : Prop := ∃ k : ℤ, v = (k : ℚ) / 10 ^ d

theorem isGrid_roundTo (v : ℚ) (d : ℕ) : IsGrid d (roundTo v d) :=
  ⟨⌊v * 10 ^ d + 1/2⌋, rfl⟩

theorem isGrid_zero (d : ℕ) : IsGrid d 0 := ⟨0, by simp⟩

theorem IsGrid.add {d : ℕ} {v w : ℚ} (hv : IsGrid d v) (hw : IsGrid d w) :
    IsGrid d (v + w) := by
  obtain ⟨k, rfl⟩ := hv
  obtain ⟨m, rfl⟩ := hw
  exact ⟨k + m, by push_cast; ring⟩

theorem IsGrid.sub {d : ℕ} {v w : ℚ} (hv : IsGrid d v) (hw : IsGrid d w) :
    IsGrid d (v - w) := by
  obtain ⟨k, rfl⟩ := hv
  obtain ⟨m, rfl⟩ := hw
  exact ⟨k - m, by push_cast; ring⟩

theorem IsGrid.roundTo_eq {d : ℕ} {v : ℚ} (h : IsGrid d v) : roundTo v d = v := by
  obtain ⟨k, rfl⟩ := h
  unfold roundTo
  have hf : ((10:ℚ) ^ d) ≠ 0 := by positivity
  have h1 : (k : ℚ) / 10 ^ d * 10 ^ d = (k : ℚ) := div_mul_cancel₀ _ hf
  rw [h1]
  have h2 : ⌊(k : ℚ) + 1/2⌋ = ⌊(1/2 : ℚ)⌋ + k := by
    rw [add_comm]
    exact Int.floor_add_int (1/2 : ℚ) k
  have h3 : ⌊(1/2 : ℚ)⌋ = 0 := by
    rw [Int.floor_eq_zero_iff, Set.mem_Ico]
    norm_num
  rw [h2, h3, zero_add]

/-! ## Data model (mirrors the TypeScript interfaces in src/index.ts) -/

/-- `DiscountKind` / `ChargeKind`: both TS enums have the same two values
`"fixed"` and `"percentage"`. -/
inductive Kind where
  | fixed
  | percent
deriving DecidableEq, Repr

/-- `ItemDiscount` (tagged union of FIXED/PERCENT with a numeric value). -/
structure ItemDiscount where
  kind : Kind
  value : ℚ
deriving DecidableEq, Repr

/-- `BillItem`.  Optional booleans collapse to `Bool` (JS truthiness). -/
structure BillItem where
  sku : Option String := none
  name : String
  qty : ℚ
  unitPrice : ℚ
  currency : Option String := none
  taxFree : Bool := false
  discount : Option ItemDiscount := none
deriving DecidableEq, Repr

/-- `GlobalDiscount` (the non-null variants; `null` is `Option.none` in
`BillingConfig`). -/
structure GlobalDiscount where
  kind : Kind
  value : ℚ
deriving DecidableEq, Repr

/-- `Charge`.  `applyOn` stays a raw optional string: the source matches on
string values with a default branch, and the validator inspects it. -/
structure Charge where
  name : String
  kind : Kind
  value : ℚ
  applyOn : Option String := none
deriving DecidableEq, Repr

/-- `TaxRule`.  `enabled` keeps its three-valued JS shape
(`undefined`/`true`/`false`): the source filter is `t.enabled !== false`. -/
structure TaxRule where
  name : String
  rate : ℚ
  inclusive : Bool := false
  applyOn : Option String := none
  enabled : Option Bool := none
  threshold : Option ℚ := none
  compound : Bool := false
deriving DecidableEq, Repr

/-- `BillingConfig` (the `billingIdPrefix` field only feeds the generated
billing id and is omitted together with it). -/
structure BillingConfig where
  decimalPlaces : Option ℕ := none
  roundOff : Option Bool := none
  globalDiscount : Option GlobalDiscount := none
  decimalInternalPrecision : Option ℕ := none
  currency : Option String := none
  exchangeRates : Option (List (String × ℚ)) := none
  taxPreset : Option String := none
deriving DecidableEq, Repr

/-- The argument object of `calculateBill`.  `billingId` is dropped (it only
selects the reported id string). -/
structure Payload where
  config : Option BillingConfig := none
  items : List BillItem
  charges : Option (List Charge) := none
  taxes : Option (List TaxRule) := none
deriving DecidableEq, Repr

/-- The `taxPresets` table of src/index.ts. -/
def taxPresets : List (String × List TaxRule) :=
  [ ("india",
      [ { name := "CGST", rate := 9, inclusive := true, applyOn := some "netAfterDiscount" },
        { name := "SGST", rate := 9, inclusive := true, applyOn := some "netAfterDiscount" } ]),
    ("usa",
      [ { name := "Sales Tax", rate := 33/4, inclusive := false, applyOn := some "taxableBase" } ]),
    ("eu",
      [ { name := "VAT", rate := 20, inclusive := false, applyOn := some "taxableBase" } ]),
    ("uk",
      [ { name := "VAT", rate := 20, inclusive := false, applyOn := some "taxableBase" } ]),
    ("canada",
      [ { name := "GST", rate := 5, inclusive := false, applyOn := some "taxableBase" },
        { name := "PST", rate := 7, inclusive := false, applyOn := some "taxableBase" } ]),
    ("australia",
      [ { name := "GST", rate := 10, inclusive := false, applyOn := some "taxableBase" } ]) ]

/-- `taxPresets[name]` object lookup. -/
def presetLookup (s : String) : Option (List TaxRule) :=
  (taxPresets.find? (fun pr => pr.1 == s)).map (fun pr => pr.2)

/-! ## Validation (`validatePayload` in src/index.ts)

Type-level checks (`typeof x !== 'number'`, array-ness) are discharged by the
embedding's types; the value-level checks are reproduced in source order.
Error messages avoid the source's quote characters but keep the wording. -/

/-- `ValidationError`: message plus field path. -/
structure VErr where
  message : String
  field : String
deriving DecidableEq, Repr

/-- The three legal `applyOn` values for charges. -/
def chargeApplyOnValues : List String := ["subtotal", "taxableBase", "netAfterDiscount"]

/-- The four legal `applyOn` values for taxes. -/
def taxApplyOnValues : List String := ["subtotal", "taxableBase", "charges", "netAfterDiscount"]

/-- First error of two optional errors (sequential throw order). -/
def firstErr (a b : Option VErr) : Option VErr :=
  match a with
  | some e => some e
  | none => b

/-- The checks of one `payload.items.forEach` iteration, `n` is the index. -/
def itemCheck (n : ℕ) (it : BillItem) : Option VErr :=
  if it.name.trim.length = 0 then
    some ⟨"Item " ++ Nat.repr n ++ ": name is required and must be a non-empty string",
          "items[" ++ Nat.repr n ++ "].name"⟩
  else if it.qty < 0 then
    some ⟨"Item " ++ Nat.repr n ++ ": qty must be a non-negative number",
          "items[" ++ Nat.repr n ++ "].qty"⟩
  else if it.unitPrice < 0 then
    some ⟨"Item " ++ Nat.repr n ++ ": unitPrice must be a non-negative number",
          "items[" ++ Nat.repr n ++ "].unitPrice"⟩
  else
    match it.discount with
    | some d =>
      if d.kind = Kind.percent ∧ (d.value < 0 ∨ 100 < d.value) then
        some ⟨"Item " ++ Nat.repr n ++ ": discount percentage must be between 0 and 100",
              "items[" ++ Nat.repr n ++ "].discount.value"⟩
      else if d.kind = Kind.fixed ∧ d.value < 0 then
        some ⟨"Item " ++ Nat.repr n ++ ": discount fixed value must be non-negative",
              "items[" ++ Nat.repr n ++ "].discount.value"⟩
      else none
    | none => none

/-- Per-item validation loop. -/
def checkItems (n : ℕ) : List BillItem → Option VErr
  | [] => none
  | it :: rest => firstErr (itemCheck n it) (checkItems (n + 1) rest)

/-- The checks of one charge iteration. -/
def chargeCheck (n : ℕ) (ch : Charge) : Option VErr :=
  if ch.name.trim.length = 0 then
    some ⟨"Charge " ++ Nat.repr n ++ ": name is required and must be a non-empty string",
          "charges[" ++ Nat.repr n ++ "].name"⟩
  else if ch.value < 0 then
    some ⟨"Charge " ++ Nat.repr n ++ ": value must be a non-negative number",
          "charges[" ++ Nat.repr n ++ "].value"⟩
  else
    match ch.applyOn with
    | some s =>
      if s ≠ "" ∧ ¬ chargeApplyOnValues.contains s then
        some ⟨"Charge " ++ Nat.repr n ++ ": applyOn must be one of subtotal, taxableBase, netAfterDiscount",
              "charges[" ++ Nat.repr n ++ "].applyOn"⟩
      else none
    | none => none

/-- Charge validation loop. -/
def checkCharges (n : ℕ) : List Charge → Option VErr
  | [] => none
  | ch :: rest => firstErr (chargeCheck n ch) (checkCharges (n + 1) rest)

/-- The checks of one tax-rule iteration. -/
def taxCheck (n : ℕ) (t : TaxRule) : Option VErr :=
  if t.name.trim.length = 0 then
    some ⟨"Tax " ++ Nat.repr n ++ ": name is required and must be a non-empty string",
          "taxes[" ++ Nat.repr n ++ "].name"⟩
  else if t.rate < 0 then
    some ⟨"Tax " ++ Nat.repr n ++ ": rate must be a non-negative number",
          "taxes[" ++ Nat.repr n ++ "].rate"⟩
  else
    match t.applyOn with
    | some s =>
      if s ≠ "" ∧ ¬ taxApplyOnValues.contains s then
        some ⟨"Tax " ++ Nat.repr n ++ ": applyOn must be one of subtotal, taxableBase, charges, netAfterDiscount",
              "taxes[" ++ Nat.repr n ++ "].applyOn"⟩
      else none
    | none => none

/-- Tax-rule validation loop. -/
def checkTaxes (n : ℕ) : List TaxRule → Option VErr
  | [] => none
  | t :: rest => firstErr (taxCheck n t) (checkTaxes (n + 1) rest)

/-- Exchange-rate table validation (each rate must be strictly positive). -/
def checkRates : List (String × ℚ) → Option VErr
  | [] => none
  | (c, r) :: rest =>
    if r ≤ 0 then
      some ⟨"Config: exchangeRates." ++ c ++ " must be a positive number",
            "config.exchangeRates." ++ c⟩
    else checkRates rest

/-- Config validation block. -/
def checkConfig (c : BillingConfig) : Option VErr :=
  firstErr
    (match c.decimalPlaces with
     | some d =>
       if 10 < d then
         some ⟨"Config: decimalPlaces must be a number between 0 and 10", "config.decimalPlaces"⟩
       else none
     | none => none)
    (firstErr
      (match c.decimalInternalPrecision with
       | some d =>
         if 15 < d then
           some ⟨"Config: decimalInternalPrecision must be a number between 0 and 15",
                 "config.decimalInternalPrecision"⟩
         else none
       | none => none)
      (firstErr
        (match c.globalDiscount with
         | some g =>
           if g.kind = Kind.percent ∧ (g.value < 0 ∨ 100 < g.value) then
             some ⟨"Config: globalDiscount percentage must be between 0 and 100",
                   "config.globalDiscount.value"⟩
           else if g.kind = Kind.fixed ∧ g.value < 0 then
             some ⟨"Config: globalDiscount fixed value must be non-negative",
                   "config.globalDiscount.value"⟩
           else none
         | none => none)
        (firstErr
          (match c.exchangeRates with | some m => checkRates m | none => none)
          (match c.taxPreset with
           | some s =>
             if s ≠ "" ∧ presetLookup s = none then
               some ⟨"Config: unknown tax preset " ++ s, "config.taxPreset"⟩
             else none
           | none => none))))

/-- `validatePayload` in src/index.ts. -/
def validatePayload (p : Payload) : Option VErr :=
  if p.items.isEmpty then
    some ⟨"At least one item is required", "items"⟩
  else
    firstErr (checkItems 0 p.items)
      (firstErr (match p.charges with | some l => checkCharges 0 l | none => none)
        (firstErr (match p.taxes with | some l => checkTaxes 0 l | none => none)
          (match p.config with | some c => checkConfig c | none => none)))

/-! ## Config resolution and the merged tax list

`calculateBill` spreads the payload config over defaults
(`{decimalPlaces: 2, roundOff: true, globalDiscount: null,
decimalInternalPrecision: 6, currency: "USD", ...payload.config}`), filters
enabled taxes (`t.enabled !== false`) and concatenates the preset bundle. -/

/-- A missing payload config behaves as the all-absent object. -/
def emptyConfig : BillingConfig := {}

/-- `config.taxPreset` truthiness (non-empty string). -/
def presetTruthy (s : Option String) : Bool :=
  match s with
  | some v => v ≠ ""
  | none => false

/-- The fully resolved inputs of the arithmetic pipeline. -/
structure Resolved where
  dp : ℕ
  ip : ℕ
  roundOff : Bool
  currency : String
  rates : Option (List (String × ℚ))
  gdisc : Option GlobalDiscount
  items : List BillItem
  charges : List Charge
  taxesM : List TaxRule
deriving DecidableEq, Repr

/-- Rules contributed by the configured preset (enabled-filtered like the
caller-supplied list). -/
def presetRules (c : BillingConfig) : List TaxRule :=
  match c.taxPreset with
  | some s =>
    if s ≠ "" then ((presetLookup s).getD []).filter (fun t => t.enabled ≠ some false)
    else []
  | none => []

/-- Default-merge of the payload (the prologue of `calculateBill`). -/
def resolve (p : Payload) : Resolved :=
  let c := p.config.getD emptyConfig
  { dp := c.decimalPlaces.getD 2
    ip := c.decimalInternalPrecision.getD 6
    roundOff := c.roundOff.getD true
    currency := c.currency.getD "USD"
    rates := c.exchangeRates
    gdisc := c.globalDiscount
    items := p.items
    charges := p.charges.getD []
    taxesM := (p.taxes.getD []).filter (fun t => t.enabled ≠ some false) ++ presetRules c }

/-! ## Step 1: per-item processing -/

/-- `config.exchangeRates?.[c]` object lookup. -/
def lookupRate (rates : Option (List (String × ℚ))) (c : String) : Option ℚ :=
  rates.bind (fun l => (l.find? (fun pr => pr.1 == c)).map (fun pr => pr.2))

/-- Unit price after the per-item currency normalization
(`unitPrice / config.exchangeRates[it.currency]` when the guard
`it.currency && it.currency !== config.currency && rate-truthy` fires). -/
def effUnitPrice (R : Resolved) (it : BillItem) : ℚ :=
  match it.currency with
  | some c =>
    if c ≠ "" ∧ c ≠ R.currency then
      match lookupRate R.rates c with
      | some r => if r ≠ 0 then it.unitPrice / r else it.unitPrice
      | none => it.unitPrice
    else it.unitPrice
  | none => it.unitPrice

/-- `basePrice = internalRound(qty * unitPrice)`. -/
def basePriceOf (R : Resolved) (it : BillItem) : ℚ :=
  internalRound (it.qty * effUnitPrice R it) R.ip

/-- Absolute item discount: fixed value or percent of basePrice, internally
rounded, then clamped at basePrice (`if (itemDiscountAbs > basePrice) ...`). -/
def itemDiscountAbsOf (R : Resolved) (it : BillItem) : ℚ :=
  match it.discount with
  | some d =>
    let raw :=
      match d.kind with
      | Kind.fixed => d.value
      | Kind.percent => basePriceOf R it * (d.value / 100)
    let rounded := internalRound raw R.ip
    if basePriceOf R it < rounded then basePriceOf R it else rounded
  | none => 0

/-- `netPrice = internalRound(basePrice - itemDiscountAbs)`. -/
def netPriceOf (R : Resolved) (it : BillItem) : ℚ :=
  internalRound (basePriceOf R it - itemDiscountAbsOf R it) R.ip

/-- `taxableAmount = taxFree ? 0 : netPrice`. -/
def taxableAmountOf (R : Resolved) (it : BillItem) : ℚ :=
  if it.taxFree then 0 else netPriceOf R it

/-- Per-item tax line.  `exempt` models the
"Tax exempt or zero taxable amount" formula string. -/
structure ItemTaxEntry where
  name : String
  amountInternal : ℚ
  amountDisplay : ℚ
  exempt : Bool
deriving DecidableEq, Repr

/-- Per-item tax attribution: only rules whose effective `applyOn` is
`taxableBase` produce a per-item line; the rest are skipped by `continue`. -/
def itemTaxEntriesOf (R : Resolved) (it : BillItem) : List ItemTaxEntry :=
  (R.taxesM.filter (fun t => t.applyOn.getD "taxableBase" == "taxableBase")).map
    (fun t =>
      let ta := taxableAmountOf R it
      if ta ≤ 0 then ⟨t.name, 0, 0, true⟩
      else if t.inclusive then
        let nb := internalRound (ta / (1 + t.rate / 100)) R.ip
        let a := internalRound (ta - nb) R.ip
        ⟨t.name, a, roundTo a R.dp, false⟩
      else
        let a := internalRound (ta * (t.rate / 100)) R.ip
        ⟨t.name, a, roundTo a R.dp, false⟩)

/-- Sum of the per-item tax amounts (pre-display values, as accumulated by
`taxesApplied.reduce`). -/
def itemTaxesSumOf (R : Resolved) (it : BillItem) : ℚ :=
  ((itemTaxEntriesOf R it).map (fun e => e.amountInternal)).sum

/-- `itemTotal = internalRound(netPrice + itemTaxesSum)`. -/
def itemTotalOf (R : Resolved) (it : BillItem) : ℚ :=
  internalRound (netPriceOf R it + itemTaxesSumOf R it) R.ip

/-- `ItemBreakdown` (display-rounded fields, as pushed into the result). -/
structure ItemBreakdown where
  index : ℕ
  sku : Option String
  name : String
  qty : ℚ
  unitPrice : ℚ
  basePrice : ℚ
  itemDiscount : ℚ
  netPrice : ℚ
  taxableAmount : ℚ
  taxesApplied : List ItemTaxEntry
  total : ℚ
deriving DecidableEq, Repr

/-- One `itemBreakdowns.push({...})` record.  `unitPrice` displays the
original (unconverted) unit price, as in the source. -/
def mkItemBreakdown (R : Resolved) (n : ℕ) (it : BillItem) : ItemBreakdown :=
  { index := n
    sku := it.sku
    name := it.name
    qty := it.qty
    unitPrice := roundTo it.unitPrice R.dp
    basePrice := roundTo (basePriceOf R it) R.dp
    itemDiscount := roundTo (itemDiscountAbsOf R it) R.dp
    netPrice := roundTo (netPriceOf R it) R.dp
    taxableAmount := roundTo (taxableAmountOf R it) R.dp
    taxesApplied := itemTaxEntriesOf R it
    total := roundTo (itemTotalOf R it) R.dp }

/-- The item loop, carrying the running index. -/
def itemBreakdownsFrom (R : Resolved) (n : ℕ) : List BillItem → List ItemBreakdown
  | [] => []
  | it :: rest => mkItemBreakdown R n it :: itemBreakdownsFrom R (n + 1) rest

/-- All item breakdown rows. -/
def itemBreakdownsOf (R : Resolved) : List ItemBreakdown :=
  itemBreakdownsFrom R 0 R.items

/-! ## Step 2: subtotal, discounts -/

/-- `subtotal = internalRound(Σ basePrice)`. -/
def subtotalOf (R : Resolved) : ℚ :=
  internalRound ((R.items.map (basePriceOf R)).sum) R.ip

/-- `totalItemDiscount = internalRound(Σ itemDiscountAbs)`. -/
def totalItemDiscountOf (R : Resolved) : ℚ :=
  internalRound ((R.items.map (itemDiscountAbsOf R)).sum) R.ip

/-- `netAfterItemDiscounts = internalRound(subtotal - totalItemDiscount)`. -/
def netAfterItemDiscountsOf (R : Resolved) : ℚ :=
  internalRound (subtotalOf R - totalItemDiscountOf R) R.ip

/-- Global discount: fixed value (unrounded) or internally-rounded percent of
the net, clamped at `netAfterItemDiscounts`. -/
def globalDiscountAbsOf (R : Resolved) : ℚ :=
  match R.gdisc with
  | some g =>
    let raw :=
      match g.kind with
      | Kind.fixed => g.value
      | Kind.percent => internalRound (netAfterItemDiscountsOf R * (g.value / 100)) R.ip
    if netAfterItemDiscountsOf R < raw then netAfterItemDiscountsOf R else raw
  | none => 0

/-- `netAfterGlobalDiscount = internalRound(netAfterItemDiscounts - globalDiscountAbs)`. -/
def netAfterGlobalDiscountOf (R : Resolved) : ℚ :=
  internalRound (netAfterItemDiscountsOf R - globalDiscountAbsOf R) R.ip

/-! ## Step 3: charges -/

/-- Base selection for a charge (`applyOn ?? "netAfterDiscount"`; both
`taxableBase` and the default branch resolve to `netAfterGlobalDiscount`). -/
def chargeBaseOf (R : Resolved) (ch : Charge) : ℚ :=
  let a := ch.applyOn.getD "netAfterDiscount"
  if a == "subtotal" then subtotalOf R
  else if a == "taxableBase" then netAfterGlobalDiscountOf R
  else netAfterGlobalDiscountOf R

/-- Charge amount (fixed literal value or internally-rounded percent, with the
source's extra `internalRound(amount)` pass). -/
def chargeAmountOf (R : Resolved) (ch : Charge) : ℚ :=
  let amt :=
    match ch.kind with
    | Kind.fixed => ch.value
    | Kind.percent => internalRound (chargeBaseOf R ch * (ch.value / 100)) R.ip
  internalRound amt R.ip

/-- `ChargeBreakdown` row (structured formula dropped; both the internal and
the display-rounded amount are kept). -/
structure ChargeEntry where
  name : String
  kind : Kind
  value : ℚ
  applyOn : String
  amountInternal : ℚ
  amountDisplay : ℚ
deriving DecidableEq, Repr

/-- The charge loop output. -/
def chargeEntriesOf (R : Resolved) : List ChargeEntry :=
  R.charges.map (fun ch =>
    ⟨ch.name, ch.kind, ch.value, ch.applyOn.getD "netAfterDiscount",
     chargeAmountOf R ch, roundTo (chargeAmountOf R ch) R.dp⟩)

/-- `totalCharges = internalRound(Σ amount)`. -/
def totalChargesOf (R : Resolved) : ℚ :=
  internalRound ((R.charges.map (chargeAmountOf R)).sum) R.ip

/-! ## Step 4: bill-level taxes -/

/-- The fixed quantities the tax loop reads. -/
structure TaxCtx where
  subtotal : ℚ
  nAGD : ℚ
  totalCharges : ℚ
  ip : ℕ
  dp : ℕ
deriving DecidableEq, Repr

/-- Context of the tax loop inside `calculateBill`. -/
def taxCtxOf (R : Resolved) : TaxCtx :=
  ⟨subtotalOf R, netAfterGlobalDiscountOf R, totalChargesOf R, R.ip, R.dp⟩

/-- Base selection for a tax rule (`applyOn ?? "taxableBase"`). -/
def taxBaseOf (c : TaxCtx) (t : TaxRule) : ℚ :=
  let a := t.applyOn.getD "taxableBase"
  if a == "subtotal" then c.subtotal
  else if a == "taxableBase" then c.nAGD
  else if a == "charges" then c.totalCharges
  else c.nAGD + c.totalCharges

/-- `TaxBreakdown` row. `below` models the "Below threshold" formula string;
`effBase` records the effective base the rule saw. -/
structure TaxEntry where
  name : String
  rate : ℚ
  inclusive : Bool
  applyOn : String
  below : Bool
  effBase : ℚ
  amountInternal : ℚ
  amountDisplay : ℚ
deriving DecidableEq, Repr

/-- Running state of the tax loop. -/
structure TaxState where
  entries : List TaxEntry
  totalInclusive : ℚ
  totalExclusive : ℚ
  totalTaxSoFar : ℚ
deriving DecidableEq, Repr

/-- `effectiveBase = base (+ totalTaxSoFar when compound)`. -/
def effBaseOf (c : TaxCtx) (s : TaxState) (t : TaxRule) : ℚ :=
  taxBaseOf c t + (if t.compound then s.totalTaxSoFar else 0)

/-- One loop iteration's breakdown row.  The threshold guard is
`t.threshold && effectiveBase < t.threshold` (a zero threshold is falsy). -/
def mkTaxEntry (c : TaxCtx) (s : TaxState) (t : TaxRule) : TaxEntry :=
  let applyOn := t.applyOn.getD "taxableBase"
  let eff := effBaseOf c s t
  let belowB :=
    match t.threshold with
    | some th => decide (th ≠ 0 ∧ eff < th)
    | none => false
  if belowB then ⟨t.name, t.rate, t.inclusive, applyOn, true, eff, 0, 0⟩
  else if t.inclusive then
    let nb := internalRound (eff / (1 + t.rate / 100)) c.ip
    let a := internalRound (eff - nb) c.ip
    ⟨t.name, t.rate, true, applyOn, false, eff, a, roundTo a c.dp⟩
  else
    let a := internalRound (eff * (t.rate / 100)) c.ip
    ⟨t.name, t.rate, false, applyOn, false, eff, a, roundTo a c.dp⟩

/-- One loop iteration: push the row, accumulate the three running totals
(a below-threshold row is pushed but accumulates nothing, like `continue`). -/
def taxStep (c : TaxCtx) (s : TaxState) (t : TaxRule) : TaxState :=
  let e := mkTaxEntry c s t
  { entries := s.entries ++ [e]
    totalInclusive := s.totalInclusive + (if e.inclusive ∧ ¬ e.below then e.amountInternal else 0)
    totalExclusive := s.totalExclusive + (if ¬ e.inclusive ∧ ¬ e.below then e.amountInternal else 0)
    totalTaxSoFar := s.totalTaxSoFar + (if e.below then 0 else e.amountInternal) }

/-- Initial tax-loop state. -/
def initTaxState : TaxState := ⟨[], 0, 0, 0⟩

/-- The tax loop. -/
def taxFold (c : TaxCtx) (s : TaxState) (l : List TaxRule) : TaxState :=
  l.foldl (taxStep c) s

/-- State after the first `i` rules. -/
def stateAfterOf (R : Resolved) (i : ℕ) : TaxState :=
  taxFold (taxCtxOf R) initTaxState (R.taxesM.take i)

/-- State after the whole tax loop. -/
def finalTaxStateOf (R : Resolved) : TaxState :=
  taxFold (taxCtxOf R) initTaxState R.taxesM

/-- The published tax breakdown rows. -/
def taxEntriesOf (R : Resolved) : List TaxEntry :=
  (finalTaxStateOf R).entries

/-- The effective base rule `i` sees (0 past the end of the list). -/
def effBaseAt (R : Resolved) (i : ℕ) : ℚ :=
  match R.taxesM[i]? with
  | some t => effBaseOf (taxCtxOf R) (stateAfterOf R i) t
  | none => 0

/-- `totalInclusiveTaxes = internalRound(Σ inclusive amounts)`. -/
def totalInclusiveTaxesOf (R : Resolved) : ℚ :=
  internalRound (finalTaxStateOf R).totalInclusive R.ip

/-- `totalExclusiveTaxes = internalRound(Σ exclusive amounts)`. -/
def totalExclusiveTaxesOf (R : Resolved) : ℚ :=
  internalRound (finalTaxStateOf R).totalExclusive R.ip

/-! ## Step 5: final total, conversions, result -/

/-- `beforeRoundTotal = internalRound(netAfterGlobalDiscount + totalCharges
  + totalExclusiveTaxes)`; inclusive taxes are not added. -/
def beforeRoundTotalOf (R : Resolved) : ℚ :=
  internalRound (netAfterGlobalDiscountOf R + totalChargesOf R + totalExclusiveTaxesOf R) R.ip

/-- The final total is display-rounded on both `roundOff` branches. -/
def finalTotalOf (R : Resolved) : ℚ :=
  roundTo (beforeRoundTotalOf R) R.dp

/-- The rounding residual (recorded only when `roundOff` is on). -/
def roundDiffOf (R : Resolved) : ℚ :=
  if R.roundOff then internalRound (finalTotalOf R - beforeRoundTotalOf R) R.ip else 0

/-- `convertedTotals[code] = roundTo(finalTotal * rate)`, present exactly when
an exchange-rate table is configured. -/
def convertedTotalsOf (R : Resolved) : Option (List (String × ℚ)) :=
  R.rates.map (fun l => l.map (fun pr => (pr.1, roundTo (finalTotalOf R * pr.2) R.dp)))

/-- `BillingResult` (billingId/timestamp/meta/formula strings omitted). -/
structure BillingResult where
  currency : String
  subtotal : ℚ
  totalItemDiscount : ℚ
  globalDiscount : ℚ
  taxableBase : ℚ
  charges : List ChargeEntry
  taxes : List TaxEntry
  roundOff : ℚ
  total : ℚ
  convertedTotals : Option (List (String × ℚ))
  items : List ItemBreakdown
deriving DecidableEq, Repr

/-- The assembled result object. -/
def toResult (R : Resolved) : BillingResult :=
  { currency := R.currency
    subtotal := roundTo (subtotalOf R) R.dp
    totalItemDiscount := roundTo (totalItemDiscountOf R) R.dp
    globalDiscount := roundTo (globalDiscountAbsOf R) R.dp
    taxableBase := roundTo (netAfterGlobalDiscountOf R) R.dp
    charges := chargeEntriesOf R
    taxes := taxEntriesOf R
    roundOff := roundTo (roundDiffOf R) R.dp
    total := roundTo (finalTotalOf R) R.dp
    convertedTotals := convertedTotalsOf R
    items := itemBreakdownsOf R }

/-- `calculateBill`: validate, re-check the preset (the in-function
`Unknown tax preset` throw), then compute. -/
def calculateBill (p : Payload) : Except VErr BillingResult :=
  match validatePayload p with
  | some e => Except.error e
  | none =>
    let c := p.config.getD emptyConfig
    if presetTruthy c.taxPreset ∧ presetLookup (c.taxPreset.getD "") = none then
      Except.error ⟨"Unknown tax preset: " ++ c.taxPreset.getD "", "config.taxPreset"⟩
    else Except.ok (toResult (resolve p))

/-- `Except.ok`-ness as a Boolean (for concrete evaluations). -/
def isOkB (x : Except VErr BillingResult) : Bool :=
  match x with
  | Except.ok _ => true
  | Except.error _ => false

/-! ## Inversion of the validator -/

/-- Value-level facts guaranteed for an item that passes validation. -/
def ItemOk (it : BillItem) : Prop :=
  0 ≤ it.qty ∧ 0 ≤ it.unitPrice ∧
    ∀ d, it.discount = some d →
      (d.kind = Kind.percent → 0 ≤ d.value ∧ d.value ≤ 100) ∧
      (d.kind = Kind.fixed → 0 ≤ d.value)

/-- Facts guaranteed for a charge that passes validation. -/
def ChargeOk (ch : Charge) : Prop :=
  0 ≤ ch.value ∧
    ∀ s, ch.applyOn = some s → s ≠ "" → chargeApplyOnValues.contains s = true

/-- Facts guaranteed for a tax rule that passes validation. -/
def TaxOk (t : TaxRule) : Prop :=
  0 ≤ t.rate ∧
    ∀ s, t.applyOn = some s → s ≠ "" → taxApplyOnValues.contains s = true

/-- Facts guaranteed for a config that passes validation. -/
def ConfigOk (c : BillingConfig) : Prop :=
  (∀ g, c.globalDiscount = some g →
      (g.kind = Kind.percent → 0 ≤ g.value ∧ g.value ≤ 100) ∧
      (g.kind = Kind.fixed → 0 ≤ g.value)) ∧
  (∀ m, c.exchangeRates = some m → ∀ pr ∈ m, 0 < pr.2) ∧
  (∀ s, c.taxPreset = some s → s ≠ "" → presetLookup s ≠ none)

theorem firstErr_eq_none {a b : Option VErr} :
    firstErr a b = none ↔ a = none ∧ b = none := by
  cases a <;> simp [firstErr]

theorem firstErr_eq_some {a b : Option VErr} {e : VErr} :
    firstErr a b = some e ↔ a = some e ∨ (a = none ∧ b = some e) := by
  cases a <;> simp [firstErr]

theorem itemCheck_none {n : ℕ} {it : BillItem} (h : itemCheck n it = none) :
    ItemOk it := by
  unfold itemCheck at h
  split_ifs at h with h1 h2 h3
  refine ⟨le_of_not_lt h2, le_of_not_lt h3, ?_⟩
  intro d hd
  rw [hd] at h
  dsimp only at h
  split_ifs at h with h4 h5
  constructor
  · intro hk
    have h4a : ¬ (d.value < 0 ∨ 100 < d.value) := fun hc => h4 ⟨hk, hc⟩
    push_neg at h4a
    exact h4a
  · intro hk
    have h5a : ¬ d.value < 0 := fun hc => h5 ⟨hk, hc⟩
    exact le_of_not_lt h5a

theorem checkItems_none {l : List BillItem} :
    ∀ {n : ℕ}, checkItems n l = none → ∀ it ∈ l, ItemOk it := by
  induction l with
  | nil => intro n _ it hit; cases hit
  | cons x xs ih =>
    intro n h it hit
    simp only [checkItems] at h
    rw [firstErr_eq_none] at h
    rcases List.mem_cons.mp hit with rfl | hit
    · exact itemCheck_none h.1
    · exact ih h.2 it hit

theorem chargeCheck_none {n : ℕ} {ch : Charge} (h : chargeCheck n ch = none) :
    ChargeOk ch := by
  unfold chargeCheck at h
  split_ifs at h with h1 h2
  refine ⟨le_of_not_lt h2, ?_⟩
  intro s hs hne
  rw [hs] at h
  dsimp only at h
  split_ifs at h with h3
  have h3a : ¬ ¬ chargeApplyOnValues.contains s = true := fun hc => h3 ⟨hne, hc⟩
  exact not_not.mp h3a

theorem checkCharges_none {l : List Charge} :
    ∀ {n : ℕ}, checkCharges n l = none → ∀ ch ∈ l, ChargeOk ch := by
  induction l with
  | nil => intro n _ ch hch; cases hch
  | cons x xs ih =>
    intro n h ch hch
    simp only [checkCharges] at h
    rw [firstErr_eq_none] at h
    rcases List.mem_cons.mp hch with rfl | hch
    · exact chargeCheck_none h.1
    · exact ih h.2 ch hch

theorem taxCheck_none {n : ℕ} {t : TaxRule} (h : taxCheck n t = none) :
    TaxOk t := by
  unfold taxCheck at h
  split_ifs at h with h1 h2
  refine ⟨le_of_not_lt h2, ?_⟩
  intro s hs hne
  rw [hs] at h
  dsimp only at h
  split_ifs at h with h3
  have h3a : ¬ ¬ taxApplyOnValues.contains s = true := fun hc => h3 ⟨hne, hc⟩
  exact not_not.mp h3a

theorem checkTaxes_none {l : List TaxRule} :
    ∀ {n : ℕ}, checkTaxes n l = none → ∀ t ∈ l, TaxOk t := by
  induction l with
  | nil => intro n _ t ht; cases ht
  | cons x xs ih =>
    intro n h t ht
    simp only [checkTaxes] at h
    rw [firstErr_eq_none] at h
    rcases List.mem_cons.mp ht with rfl | ht
    · exact taxCheck_none h.1
    · exact ih h.2 t ht

theorem checkRates_none {l : List (String × ℚ)} (h : checkRates l = none) :
    ∀ pr ∈ l, 0 < pr.2 := by
  induction l with
  | nil => intro pr hpr; cases hpr
  | cons x xs ih =>
    intro pr hpr
    unfold checkRates at h
    split_ifs at h with h1
    rcases List.mem_cons.mp hpr with rfl | hpr
    · exact lt_of_not_le h1
    · exact ih h pr hpr

theorem checkConfig_none {c : BillingConfig} (h : checkConfig c = none) :
    ConfigOk c := by
  unfold checkConfig at h
  rw [firstErr_eq_none, firstErr_eq_none, firstErr_eq_none, firstErr_eq_none] at h
  obtain ⟨-, -, hg, hr, hp⟩ := h
  refine ⟨?_, ?_, ?_⟩
  · intro g hgd
    rw [hgd] at hg
    dsimp only at hg
    split_ifs at hg with h1 h2
    constructor
    · intro hk
      have h1a : ¬ (g.value < 0 ∨ 100 < g.value) := fun hc => h1 ⟨hk, hc⟩
      push_neg at h1a
      exact h1a
    · intro hk
      have h2a : ¬ g.value < 0 := fun hc => h2 ⟨hk, hc⟩
      exact le_of_not_lt h2a
  · intro m hm
    rw [hm] at hr
    exact checkRates_none hr
  · intro s hs hne
    rw [hs] at hp
    dsimp only at hp
    split_ifs at hp with h1
    intro hc
    exact h1 ⟨hne, hc⟩

theorem configOk_empty : ConfigOk emptyConfig := by
  refine ⟨?_, ?_, ?_⟩ <;> intro x hx <;> simp [emptyConfig] at hx

/-- Everything `validatePayload p = none` guarantees about the payload. -/
theorem validate_none_props {p : Payload} (h : validatePayload p = none) :
    p.items ≠ [] ∧ (∀ it ∈ p.items, ItemOk it) ∧
      (∀ ch ∈ p.charges.getD [], ChargeOk ch) ∧
      (∀ t ∈ p.taxes.getD [], TaxOk t) ∧
      ConfigOk (p.config.getD emptyConfig) := by
  unfold validatePayload at h
  split_ifs at h with h0
  rw [firstErr_eq_none, firstErr_eq_none, firstErr_eq_none] at h
  obtain ⟨hi, hch, htx, hcf⟩ := h
  refine ⟨by simpa [List.isEmpty_iff] using h0, checkItems_none hi, ?_, ?_, ?_⟩
  · cases hc : p.charges with
    | none => simp [hc]
    | some l =>
      rw [hc] at hch
      simpa [hc] using checkCharges_none hch
  · cases ht : p.taxes with
    | none => simp [ht]
    | some l =>
      rw [ht] at htx
      simpa [ht] using checkTaxes_none htx
  · cases hcfg : p.config with
    | none => simpa [hcfg] using configOk_empty
    | some c =>
      rw [hcfg] at hcf
      simpa [hcfg] using checkConfig_none hcf

/-! ## Every raised validation error carries a field path and a message -/

theorem append_len_pos (a b : String) (h : 0 < a.length) : 0 < (a ++ b).length := by
  rw [String.length_append]
  omega

theorem itemCheck_some {n : ℕ} {it : BillItem} {e : VErr}
    (h : itemCheck n it = some e) : 0 < e.field.length ∧ 0 < e.message.length := by
  unfold itemCheck at h
  split_ifs at h with h1 h2 h3
  · cases h; exact ⟨append_len_pos _ _ (append_len_pos _ _ (by decide)),
      append_len_pos _ _ (append_len_pos _ _ (by decide))⟩
  · cases h; exact ⟨append_len_pos _ _ (append_len_pos _ _ (by decide)),
      append_len_pos _ _ (append_len_pos _ _ (by decide))⟩
  · cases h; exact ⟨append_len_pos _ _ (append_len_pos _ _ (by decide)),
      append_len_pos _ _ (append_len_pos _ _ (by decide))⟩
  · rcases hd : it.discount with _ | d <;> rw [hd] at h
    · cases h
    · dsimp only at h
      split_ifs at h
      · cases h; exact ⟨append_len_pos _ _ (append_len_pos _ _ (by decide)),
          append_len_pos _ _ (append_len_pos _ _ (by decide))⟩
      · cases h; exact ⟨append_len_pos _ _ (append_len_pos _ _ (by decide)),
          append_len_pos _ _ (append_len_pos _ _ (by decide))⟩

theorem checkItems_some {l : List BillItem} :
    ∀ {n : ℕ} {e : VErr}, checkItems n l = some e →
      0 < e.field.length ∧ 0 < e.message.length := by
  induction l with
  | nil => intro n e h; cases h
  | cons x xs ih =>
    intro n e h
    simp only [checkItems] at h
    rcases firstErr_eq_some.mp h with h1 | ⟨-, h2⟩
    · exact itemCheck_some h1
    · exact ih h2

theorem chargeCheck_some {n : ℕ} {ch : Charge} {e : VErr}
    (h : chargeCheck n ch = some e) : 0 < e.field.length ∧ 0 < e.message.length := by
  unfold chargeCheck at h
  split_ifs at h with h1 h2
  · cases h; exact ⟨append_len_pos _ _ (append_len_pos _ _ (by decide)),
      append_len_pos _ _ (append_len_pos _ _ (by decide))⟩
  · cases h; exact ⟨append_len_pos _ _ (append_len_pos _ _ (by decide)),
      append_len_pos _ _ (append_len_pos _ _ (by decide))⟩
  · rcases hd : ch.applyOn with _ | s <;> rw [hd] at h
    · cases h
    · dsimp only at h
      split_ifs at h
      cases h
      exact ⟨append_len_pos _ _ (append_len_pos _ _ (by decide)),
        append_len_pos _ _ (append_len_pos _ _ (by decide))⟩

theorem checkCharges_some {l : List Charge} :
    ∀ {n : ℕ} {e : VErr}, checkCharges n l = some e →
      0 < e.field.length ∧ 0 < e.message.length := by
  induction l with
  | nil => intro n e h; cases h
  | cons x xs ih =>
    intro n e h
    simp only [checkCharges] at h
    rcases firstErr_eq_some.mp h with h1 | ⟨-, h2⟩
    · exact chargeCheck_some h1
    · exact ih h2

theorem taxCheck_some {n : ℕ} {t : TaxRule} {e : VErr}
    (h : taxCheck n t = some e) : 0 < e.field.length ∧ 0 < e.message.length := by
  unfold taxCheck at h
  split_ifs at h with h1 h2
  · cases h; exact ⟨append_len_pos _ _ (append_len_pos _ _ (by decide)),
      append_len_pos _ _ (append_len_pos _ _ (by decide))⟩
  · cases h; exact ⟨append_len_pos _ _ (append_len_pos _ _ (by decide)),
      append_len_pos _ _ (append_len_pos _ _ (by decide))⟩
  · rcases hd : t.applyOn with _ | s <;> rw [hd] at h
    · cases h
    · dsimp only at h
      split_ifs at h
      cases h
      exact ⟨append_len_pos _ _ (append_len_pos _ _ (by decide)),
        append_len_pos _ _ (append_len_pos _ _ (by decide))⟩

theorem checkTaxes_some {l : List TaxRule} :
    ∀ {n : ℕ} {e : VErr}, checkTaxes n l = some e →
      0 < e.field.length ∧ 0 < e.message.length := by
  induction l with
  | nil => intro n e h; cases h
  | cons x xs ih =>
    intro n e h
    simp only [checkTaxes] at h
    rcases firstErr_eq_some.mp h with h1 | ⟨-, h2⟩
    · exact taxCheck_some h1
    · exact ih h2

theorem checkRates_some {l : List (String × ℚ)} :
    ∀ {e : VErr}, checkRates l = some e →
      0 < e.field.length ∧ 0 < e.message.length := by
  induction l with
  | nil => intro e h; cases h
  | cons x xs ih =>
    intro e h
    unfold checkRates at h
    split_ifs at h
    · cases h
      exact ⟨append_len_pos _ _ (by decide),
        append_len_pos _ _ (append_len_pos _ _ (by decide))⟩
    · exact ih h

theorem checkConfig_some {c : BillingConfig} {e : VErr}
    (h : checkConfig c = some e) : 0 < e.field.length ∧ 0 < e.message.length := by
  unfold checkConfig at h
  rcases firstErr_eq_some.mp h with h1 | ⟨-, h⟩
  · rcases hx : c.decimalPlaces with _ | d <;> rw [hx] at h1
    · cases h1
    · dsimp only at h1; split_ifs at h1; cases h1; exact ⟨by decide, by decide⟩
  rcases firstErr_eq_some.mp h with h1 | ⟨-, h⟩
  · rcases hx : c.decimalInternalPrecision with _ | d <;> rw [hx] at h1
    · cases h1
    · dsimp only at h1; split_ifs at h1; cases h1; exact ⟨by decide, by decide⟩
  rcases firstErr_eq_some.mp h with h1 | ⟨-, h⟩
  · rcases hx : c.globalDiscount with _ | g <;> rw [hx] at h1
    · cases h1
    · dsimp only at h1
      split_ifs at h1
      · cases h1; exact ⟨by decide, by decide⟩
      · cases h1; exact ⟨by decide, by decide⟩
  rcases firstErr_eq_some.mp h with h1 | ⟨-, h⟩
  · rcases hx : c.exchangeRates with _ | m <;> rw [hx] at h1
    · cases h1
    · dsimp only at h1; exact checkRates_some h1
  · rcases hx : c.taxPreset with _ | s <;> rw [hx] at h
    · cases h
    · dsimp only at h
      split_ifs at h
      cases h
      refine ⟨?_, ?_⟩
      · show 0 < ("config.taxPreset" : String).length
        decide
      · show 0 < ("Config: unknown tax preset " ++ s).length
        exact append_len_pos _ _ (by decide)

theorem validate_some_nonempty {p : Payload} {e : VErr}
    (h : validatePayload p = some e) : 0 < e.field.length ∧ 0 < e.message.length := by
  unfold validatePayload at h
  split_ifs at h with h0
  · cases h; exact ⟨by decide, by decide⟩
  · rcases firstErr_eq_some.mp h with h1 | ⟨-, h⟩
    · exact checkItems_some h1
    rcases firstErr_eq_some.mp h with h1 | ⟨-, h⟩
    · rcases hx : p.charges with _ | l <;> rw [hx] at h1
      · cases h1
      · dsimp only at h1; exact checkCharges_some h1
    rcases firstErr_eq_some.mp h with h1 | ⟨-, h⟩
    · rcases hx : p.taxes with _ | l <;> rw [hx] at h1
      · cases h1
      · dsimp only at h1; exact checkTaxes_some h1
    · rcases hx : p.config with _ | c <;> rw [hx] at h
      · cases h
      · dsimp only at h; exact checkConfig_some h

/-! ## Inversion of `calculateBill` -/

theorem calc_ok {p : Payload} {r : BillingResult} (h : calculateBill p = Except.ok r) :
    validatePayload p = none ∧ r = toResult (resolve p) := by
  unfold calculateBill at h
  cases hv : validatePayload p with
  | some e => rw [hv] at h; cases h
  | none =>
    rw [hv] at h
    dsimp only at h
    split_ifs at h with h1 <;> cases h
    exact ⟨rfl, rfl⟩

theorem calc_error_of_validate {p : Payload} {e : VErr}
    (h : validatePayload p = some e) : calculateBill p = Except.error e := by
  unfold calculateBill
  rw [h]

theorem calc_error_nonempty {p : Payload} {e : VErr}
    (h : calculateBill p = Except.error e) :
    0 < e.field.length ∧ 0 < e.message.length := by
  unfold calculateBill at h
  cases hv : validatePayload p with
  | some x =>
    rw [hv] at h
    cases h
    exact validate_some_nonempty hv
  | none =>
    rw [hv] at h
    dsimp only at h
    split_ifs at h with h1 <;> cases h
    refine ⟨?_, ?_⟩
    · show 0 < ("config.taxPreset" : String).length
      decide
    · show 0 < ("Unknown tax preset: " ++ (p.config.getD emptyConfig).taxPreset.getD "").length
      exact append_len_pos _ _ (by decide)

/-! ## Nonnegativity and grid invariants of the pipeline (valid payloads) -/

theorem internalRound_nonneg (v : ℚ) (d : ℕ) (h : 0 ≤ v) : 0 ≤ internalRound v d :=
  roundTo_nonneg v d h

theorem internalRound_mono (v w : ℚ) (d : ℕ) (h : v ≤ w) :
    internalRound v d ≤ internalRound w d :=
  roundTo_mono v w d h

theorem isGrid_internalRound (v : ℚ) (d : ℕ) : IsGrid d (internalRound v d) :=
  isGrid_roundTo v d

/-- All preset rates are nonnegative. -/
theorem presets_rate_nonneg : ∀ pr ∈ taxPresets, ∀ t ∈ pr.2, 0 ≤ t.rate := by
  intro pr hpr t ht
  fin_cases hpr <;> fin_cases ht <;> norm_num

theorem presetRules_rate_nonneg (c : BillingConfig) :
    ∀ t ∈ presetRules c, 0 ≤ t.rate := by
  intro t ht
  unfold presetRules at ht
  rcases hx : c.taxPreset with _ | s <;> rw [hx] at ht
  · cases ht
  · dsimp only at ht
    split_ifs at ht with h1
    · have ht2 := List.mem_of_mem_filter ht
      rcases hl : presetLookup s with _ | l <;> rw [hl] at ht2
      · simp at ht2
      · simp only [Option.getD_some] at ht2
        unfold presetLookup at hl
        rcases Option.map_eq_some'.mp hl with ⟨pr, hfind, hpr⟩
        have hmem := List.mem_of_find?_eq_some hfind
        exact presets_rate_nonneg pr hmem t (hpr ▸ ht2)
    · cases ht

/-- Every rate in the merged tax list of a validated payload is ≥ 0. -/
theorem taxesM_rate_nonneg {p : Payload} (hv : validatePayload p = none) :
    ∀ t ∈ (resolve p).taxesM, 0 ≤ t.rate := by
  intro t ht
  obtain ⟨-, -, -, htax, -⟩ := validate_none_props hv
  have ht2 : t ∈ (p.taxes.getD []).filter (fun t => t.enabled ≠ some false) ++
      presetRules (p.config.getD emptyConfig) := ht
  rcases List.mem_append.mp ht2 with hl | hr
  · exact (htax t (List.mem_of_mem_filter hl)).1
  · exact presetRules_rate_nonneg _ t hr

/-- Exchange-rate lookups on a validated payload return positive rates. -/
theorem lookupRate_pos {p : Payload} (hv : validatePayload p = none) :
    ∀ c r, lookupRate (resolve p).rates c = some r → 0 < r := by
  intro c r hlk
  obtain ⟨-, -, -, -, hcfg⟩ := validate_none_props hv
  have hrates : (resolve p).rates = (p.config.getD emptyConfig).exchangeRates := rfl
  rw [hrates] at hlk
  rcases hx : (p.config.getD emptyConfig).exchangeRates with _ | m <;> rw [hx] at hlk
  · cases hlk
  · simp only [lookupRate, Option.bind_some] at hlk
    rcases Option.map_eq_some'.mp hlk with ⟨pr, hfind, hpr⟩
    have hmem := List.mem_of_find?_eq_some hfind
    have := hcfg.2.1 m hx pr hmem
    exact hpr ▸ this

theorem effUnitPrice_nonneg {p : Payload} (hv : validatePayload p = none)
    {it : BillItem} (hup : 0 ≤ it.unitPrice) : 0 ≤ effUnitPrice (resolve p) it := by
  unfold effUnitPrice
  rcases it.currency with _ | c
  · exact hup
  · dsimp only
    split_ifs with h1
    · rcases hlk : lookupRate (resolve p).rates c with _ | r
      · exact hup
      · dsimp only
        split_ifs with h2
        · exact div_nonneg hup (le_of_lt (lookupRate_pos hv c r hlk))
        · exact hup
    · exact hup

theorem basePrice_nonneg {p : Payload} (hv : validatePayload p = none)
    {it : BillItem} (hit : it ∈ p.items) : 0 ≤ basePriceOf (resolve p) it := by
  obtain ⟨-, hitems, -, -, -⟩ := validate_none_props hv
  obtain ⟨hq, hup, -⟩ := hitems it hit
  exact internalRound_nonneg _ _ (mul_nonneg hq (effUnitPrice_nonneg hv hup))

theorem discount_value_nonneg {d : ItemDiscount}
    (h : (d.kind = Kind.percent → 0 ≤ d.value ∧ d.value ≤ 100) ∧
         (d.kind = Kind.fixed → 0 ≤ d.value)) : 0 ≤ d.value := by
  cases hk : d.kind
  · exact h.2 hk
  · exact (h.1 hk).1

theorem itemDiscount_nonneg_le {p : Payload} (hv : validatePayload p = none)
    {it : BillItem} (hit : it ∈ p.items) :
    0 ≤ itemDiscountAbsOf (resolve p) it ∧
      itemDiscountAbsOf (resolve p) it ≤ basePriceOf (resolve p) it := by
  obtain ⟨-, hitems, -, -, -⟩ := validate_none_props hv
  obtain ⟨hq, hup, hd⟩ := hitems it hit
  have hbp := basePrice_nonneg hv hit
  unfold itemDiscountAbsOf
  rcases hdm : it.discount with _ | d
  · exact ⟨le_refl 0, hbp⟩
  · dsimp only
    have hdv : 0 ≤ d.value := discount_value_nonneg (hd d hdm)
    have hraw : 0 ≤ (match d.kind with
        | Kind.fixed => d.value
        | Kind.percent => basePriceOf (resolve p) it * (d.value / 100)) := by
      cases d.kind
      · exact hdv
      · exact mul_nonneg hbp (div_nonneg hdv (by norm_num))
    have hrnd : 0 ≤ internalRound (match d.kind with
        | Kind.fixed => d.value
        | Kind.percent => basePriceOf (resolve p) it * (d.value / 100)) (resolve p).ip :=
      internalRound_nonneg _ _ hraw
    split_ifs with h1
    · exact ⟨hbp, le_refl _⟩
    · exact ⟨hrnd, le_of_not_lt h1⟩

theorem netPrice_nonneg {p : Payload} (hv : validatePayload p = none)
    {it : BillItem} (hit : it ∈ p.items) : 0 ≤ netPriceOf (resolve p) it := by
  have h := itemDiscount_nonneg_le hv hit
  exact internalRound_nonneg _ _ (by linarith [h.2])

theorem subtotal_nonneg {p : Payload} (hv : validatePayload p = none) :
    0 ≤ subtotalOf (resolve p) := by
  apply internalRound_nonneg
  apply List.sum_nonneg
  intro x hx
  rcases List.mem_map.mp hx with ⟨it, hit, rfl⟩
  exact basePrice_nonneg hv hit

theorem tid_le_subtotal {p : Payload} (hv : validatePayload p = none) :
    totalItemDiscountOf (resolve p) ≤ subtotalOf (resolve p) := by
  apply internalRound_mono
  apply List.sum_le_sum
  intro it hit
  exact (itemDiscount_nonneg_le hv hit).2

theorem tid_nonneg {p : Payload} (hv : validatePayload p = none) :
    0 ≤ totalItemDiscountOf (resolve p) := by
  apply internalRound_nonneg
  apply List.sum_nonneg
  intro x hx
  rcases List.mem_map.mp hx with ⟨it, hit, rfl⟩
  exact (itemDiscount_nonneg_le hv hit).1

theorem nAID_nonneg {p : Payload} (hv : validatePayload p = none) :
    0 ≤ netAfterItemDiscountsOf (resolve p) := by
  apply internalRound_nonneg
  linarith [tid_le_subtotal hv]

theorem gdisc_nonneg_le {p : Payload} (hv : validatePayload p = none) :
    0 ≤ globalDiscountAbsOf (resolve p) ∧
      globalDiscountAbsOf (resolve p) ≤ netAfterItemDiscountsOf (resolve p) := by
  obtain ⟨-, -, -, -, hcfg⟩ := validate_none_props hv
  have hnaid := nAID_nonneg hv
  unfold globalDiscountAbsOf
  rcases hg : (resolve p).gdisc with _ | g
  · exact ⟨le_refl 0, hnaid⟩
  · dsimp only
    have hg2 : (p.config.getD emptyConfig).globalDiscount = some g := hg
    have hgv : 0 ≤ g.value := by
      have h := hcfg.1 g hg2
      cases hk : g.kind
      · exact h.2 hk
      · exact (h.1 hk).1
    have hraw : 0 ≤ (match g.kind with
        | Kind.fixed => g.value
        | Kind.percent =>
          internalRound (netAfterItemDiscountsOf (resolve p) * (g.value / 100)) (resolve p).ip) := by
      cases g.kind
      · exact hgv
      · exact internalRound_nonneg _ _ (mul_nonneg hnaid (div_nonneg hgv (by norm_num)))
    split_ifs with h1
    · exact ⟨hnaid, le_refl _⟩
    · exact ⟨hraw, le_of_not_lt h1⟩

theorem nAGD_nonneg {p : Payload} (hv : validatePayload p = none) :
    0 ≤ netAfterGlobalDiscountOf (resolve p) := by
  apply internalRound_nonneg
  linarith [(gdisc_nonneg_le hv).2]

theorem chargeBase_nonneg {p : Payload} (hv : validatePayload p = none)
    (ch : Charge) : 0 ≤ chargeBaseOf (resolve p) ch := by
  unfold chargeBaseOf
  dsimp only
  split_ifs
  · exact subtotal_nonneg hv
  · exact nAGD_nonneg hv
  · exact nAGD_nonneg hv

theorem chargeAmount_nonneg {p : Payload} (hv : validatePayload p = none)
    {ch : Charge} (hch : ch ∈ (resolve p).charges) :
    0 ≤ chargeAmountOf (resolve p) ch := by
  obtain ⟨-, -, hchs, -, -⟩ := validate_none_props hv
  have hcv : 0 ≤ ch.value := (hchs ch hch).1
  unfold chargeAmountOf
  apply internalRound_nonneg
  cases ch.kind
  · exact hcv
  · exact internalRound_nonneg _ _
      (mul_nonneg (chargeBase_nonneg hv ch) (div_nonneg hcv (by norm_num)))

theorem totalCharges_nonneg {p : Payload} (hv : validatePayload p = none) :
    0 ≤ totalChargesOf (resolve p) := by
  apply internalRound_nonneg
  apply List.sum_nonneg
  intro x hx
  rcases List.mem_map.mp hx with ⟨ch, hch, rfl⟩
  exact chargeAmount_nonneg hv hch

/-- Well-formedness of the fixed tax context: nonnegative bases lying on the
internal-precision grid. -/
def TaxCtxOk (c : TaxCtx) : Prop :=
  0 ≤ c.subtotal ∧ 0 ≤ c.nAGD ∧ 0 ≤ c.totalCharges ∧
    IsGrid c.ip c.subtotal ∧ IsGrid c.ip c.nAGD ∧ IsGrid c.ip c.totalCharges

theorem taxCtxOk_of {p : Payload} (hv : validatePayload p = none) :
    TaxCtxOk (taxCtxOf (resolve p)) :=
  ⟨subtotal_nonneg hv, nAGD_nonneg hv, totalCharges_nonneg hv,
   isGrid_internalRound _ _, isGrid_internalRound _ _, isGrid_internalRound _ _⟩

theorem taxBase_nonneg {c : TaxCtx} (hc : TaxCtxOk c) (t : TaxRule) :
    0 ≤ taxBaseOf c t := by
  unfold taxBaseOf
  dsimp only
  split_ifs
  · exact hc.1
  · exact hc.2.1
  · exact hc.2.2.1
  · exact add_nonneg hc.2.1 hc.2.2.1

theorem taxBase_grid {c : TaxCtx} (hc : TaxCtxOk c) (t : TaxRule) :
    IsGrid c.ip (taxBaseOf c t) := by
  unfold taxBaseOf
  dsimp only
  split_ifs
  · exact hc.2.2.2.1
  · exact hc.2.2.2.2.1
  · exact hc.2.2.2.2.2
  · exact IsGrid.add hc.2.2.2.2.1 hc.2.2.2.2.2

/-- Invariant of the tax-loop state. -/
def StateOk (c : TaxCtx) (s : TaxState) : Prop :=
  0 ≤ s.totalTaxSoFar ∧ IsGrid c.ip s.totalTaxSoFar

theorem stateOk_init (c : TaxCtx) : StateOk c initTaxState :=
  ⟨le_refl 0, isGrid_zero c.ip⟩

theorem effBase_nonneg_grid {c : TaxCtx} {s : TaxState} (hc : TaxCtxOk c)
    (hs : StateOk c s) (t : TaxRule) :
    0 ≤ effBaseOf c s t ∧ IsGrid c.ip (effBaseOf c s t) := by
  unfold effBaseOf
  constructor
  · apply add_nonneg (taxBase_nonneg hc t)
    split_ifs
    · exact hs.1
    · exact le_refl 0
  · apply IsGrid.add (taxBase_grid hc t)
    split_ifs
    · exact hs.2
    · exact isGrid_zero c.ip

/-- The inclusive extraction is nonnegative on a nonnegative grid base. -/
theorem inclusive_amount_nonneg {e r : ℚ} {d : ℕ} (he : 0 ≤ e)
    (hg : IsGrid d e) (hr : 0 ≤ r) :
    0 ≤ internalRound (e - internalRound (e / (1 + r / 100)) d) d := by
  have h1 : (1:ℚ) ≤ 1 + r / 100 := by
    have : (0:ℚ) ≤ r / 100 := div_nonneg hr (by norm_num)
    linarith
  have h2 : e / (1 + r / 100) ≤ e := div_le_self he h1
  have h3 : internalRound (e / (1 + r / 100)) d ≤ internalRound e d :=
    internalRound_mono _ _ _ h2
  have h4 : internalRound e d = e := hg.roundTo_eq
  apply internalRound_nonneg
  rw [h4] at h3
  linarith

theorem mkTaxEntry_amount_ok {c : TaxCtx} {s : TaxState} {t : TaxRule}
    (hc : TaxCtxOk c) (hs : StateOk c s) (hr : 0 ≤ t.rate) :
    0 ≤ (mkTaxEntry c s t).amountInternal ∧
      IsGrid c.ip (mkTaxEntry c s t).amountInternal := by
  obtain ⟨he, hg⟩ := effBase_nonneg_grid hc hs t
  unfold mkTaxEntry
  dsimp only
  split_ifs
  · exact ⟨le_refl 0, isGrid_zero c.ip⟩
  · exact ⟨inclusive_amount_nonneg he hg hr, isGrid_internalRound _ _⟩
  · refine ⟨internalRound_nonneg _ _ ?_, isGrid_internalRound _ _⟩
    exact mul_nonneg he (div_nonneg hr (by norm_num))

theorem taxStep_stateOk {c : TaxCtx} {s : TaxState} {t : TaxRule}
    (hc : TaxCtxOk c) (hs : StateOk c s) (hr : 0 ≤ t.rate) :
    StateOk c (taxStep c s t) := by
  obtain ⟨ha, hag⟩ := mkTaxEntry_amount_ok hc hs hr
  unfold taxStep
  constructor
  · dsimp only
    apply add_nonneg hs.1
    split_ifs
    · exact le_refl 0
    · exact ha
  · dsimp only
    apply IsGrid.add hs.2
    split_ifs
    · exact isGrid_zero c.ip
    · exact hag

theorem taxFold_stateOk {c : TaxCtx} {l : List TaxRule} (hc : TaxCtxOk c) :
    ∀ {s : TaxState}, StateOk c s → (∀ t ∈ l, 0 ≤ t.rate) →
      StateOk c (taxFold c s l) := by
  induction l with
  | nil => intro s hs _; exact hs
  | cons x xs ih =>
    intro s hs hl
    have hstep := taxStep_stateOk hc hs (hl x (List.mem_cons_self x xs))
    exact ih hstep (fun t ht => hl t (List.mem_cons_of_mem x ht))

theorem stateAfter_stateOk {p : Payload} (hv : validatePayload p = none) (i : ℕ) :
    StateOk (taxCtxOf (resolve p)) (stateAfterOf (resolve p) i) := by
  apply taxFold_stateOk (taxCtxOk_of hv) (stateOk_init _)
  intro t ht
  exact taxesM_rate_nonneg hv t (List.mem_of_mem_take ht)

theorem effBaseAt_nonneg {p : Payload} (hv : validatePayload p = none) (i : ℕ) :
    0 ≤ effBaseAt (resolve p) i := by
  unfold effBaseAt
  rcases hx : (resolve p).taxesM[i]? with _ | t
  · exact le_refl 0
  · dsimp only
    exact (effBase_nonneg_grid (taxCtxOk_of hv) (stateAfter_stateOk hv i) t).1

/-! ## Structure of the tax loop: entries and totals -/

/-- The rows the loop pushes while consuming `l`, starting from state `s`. -/
def producedOf (c : TaxCtx) : TaxState → List TaxRule → List TaxEntry
  | _, [] => []
  | s, t :: ts => mkTaxEntry c s t :: producedOf c (taxStep c s t) ts

theorem taxFold_entries (c : TaxCtx) :
    ∀ (l : List TaxRule) (s : TaxState),
      (taxFold c s l).entries = s.entries ++ producedOf c s l := by
  intro l
  induction l with
  | nil => intro s; simp [taxFold, producedOf]
  | cons x xs ih =>
    intro s
    have h1 : taxFold c s (x :: xs) = taxFold c (taxStep c s x) xs := rfl
    rw [h1, ih]
    have h2 : (taxStep c s x).entries = s.entries ++ [mkTaxEntry c s x] := rfl
    rw [h2]
    simp [producedOf]

theorem producedOf_length (c : TaxCtx) :
    ∀ (l : List TaxRule) (s : TaxState), (producedOf c s l).length = l.length := by
  intro l
  induction l with
  | nil => intro s; rfl
  | cons x xs ih => intro s; simp [producedOf, ih]

theorem producedOf_get (c : TaxCtx) :
    ∀ (l : List TaxRule) (s : TaxState) (i : ℕ) (t : TaxRule), l[i]? = some t →
      (producedOf c s l)[i]? = some (mkTaxEntry c (taxFold c s (l.take i)) t) := by
  intro l
  induction l with
  | nil => intro s i t h; simp at h
  | cons x xs ih =>
    intro s i t h
    cases i with
    | zero =>
      simp only [List.getElem?_cons_zero, Option.some_inj] at h
      subst h
      simp [producedOf, taxFold]
    | succ i =>
      simp only [List.getElem?_cons_succ] at h
      have h2 : (x :: xs).take (i + 1) = x :: xs.take i := rfl
      rw [h2]
      have h3 : taxFold c s (x :: xs.take i) = taxFold c (taxStep c s x) (xs.take i) := rfl
      rw [h3]
      simp only [producedOf, List.getElem?_cons_succ]
      exact ih (taxStep c s x) i t h

theorem taxEntriesOf_get {R : Resolved} {i : ℕ} {t : TaxRule}
    (h : R.taxesM[i]? = some t) :
    (taxEntriesOf R)[i]? =
      some (mkTaxEntry (taxCtxOf R) (stateAfterOf R i) t) := by
  unfold taxEntriesOf finalTaxStateOf
  rw [taxFold_entries]
  have h1 : initTaxState.entries = [] := rfl
  rw [h1, List.nil_append]
  exact producedOf_get _ _ _ _ _ h

theorem taxEntries_length (R : Resolved) :
    (taxEntriesOf R).length = R.taxesM.length := by
  unfold taxEntriesOf finalTaxStateOf
  rw [taxFold_entries]
  have h1 : initTaxState.entries = [] := rfl
  rw [h1, List.nil_append]
  exact producedOf_length _ _ _

theorem stateAfter_succ {R : Resolved} {i : ℕ} {t : TaxRule}
    (h : R.taxesM[i]? = some t) :
    stateAfterOf R (i + 1) = taxStep (taxCtxOf R) (stateAfterOf R i) t := by
  unfold stateAfterOf taxFold
  rw [List.take_succ, h]
  simp [List.foldl_append]

theorem mkTaxEntry_below_amount (c : TaxCtx) (s : TaxState) (t : TaxRule) :
    (mkTaxEntry c s t).below = true → (mkTaxEntry c s t).amountInternal = 0 := by
  unfold mkTaxEntry
  dsimp only
  split_ifs <;> intro h
  · rfl
  · simp at h
  · simp at h

theorem taxFold_totalExclusive (c : TaxCtx) :
    ∀ (l : List TaxRule) (s : TaxState),
      (taxFold c s l).totalExclusive = s.totalExclusive +
        (((producedOf c s l).filter (fun e => !e.inclusive)).map
          (fun e => e.amountInternal)).sum := by
  intro l
  induction l with
  | nil => intro s; simp [taxFold, producedOf]
  | cons x xs ih =>
    intro s
    have h1 : taxFold c s (x :: xs) = taxFold c (taxStep c s x) xs := rfl
    rw [h1, ih]
    have h2 : (taxStep c s x).totalExclusive = s.totalExclusive +
        (if ¬ (mkTaxEntry c s x).inclusive ∧ ¬ (mkTaxEntry c s x).below
         then (mkTaxEntry c s x).amountInternal else 0) := rfl
    rw [h2]
    simp only [producedOf, List.filter_cons]
    by_cases hincl : (mkTaxEntry c s x).inclusive
    · simp [hincl]
    · by_cases hbel : (mkTaxEntry c s x).below
      · have h0 := mkTaxEntry_below_amount c s x hbel
        simp [hincl, hbel, h0]
      · simp [hincl, hbel]
        ring

theorem taxFold_totalInclusive (c : TaxCtx) :
    ∀ (l : List TaxRule) (s : TaxState),
      (taxFold c s l).totalInclusive = s.totalInclusive +
        (((producedOf c s l).filter (fun e => e.inclusive)).map
          (fun e => e.amountInternal)).sum := by
  intro l
  induction l with
  | nil => intro s; simp [taxFold, producedOf]
  | cons x xs ih =>
    intro s
    have h1 : taxFold c s (x :: xs) = taxFold c (taxStep c s x) xs := rfl
    rw [h1, ih]
    have h2 : (taxStep c s x).totalInclusive = s.totalInclusive +
        (if (mkTaxEntry c s x).inclusive ∧ ¬ (mkTaxEntry c s x).below
         then (mkTaxEntry c s x).amountInternal else 0) := rfl
    rw [h2]
    simp only [producedOf, List.filter_cons]
    by_cases hincl : (mkTaxEntry c s x).inclusive
    · by_cases hbel : (mkTaxEntry c s x).below
      · have h0 := mkTaxEntry_below_amount c s x hbel
        simp [hincl, hbel, h0]
      · simp [hincl, hbel]
        ring
    · simp [hincl]

/-! ## Concrete payloads used by the claim theorems -/

/-- One 100-priced item; 10% plain tax then 5% compound tax. -/
def pay5 : Payload :=
  { items := [{ name := "A", qty := 1, unitPrice := 100 }]
    taxes := some [ { name := "T1", rate := 10 },
                    { name := "T2", rate := 5, compound := true } ] }

/-- An inclusive 9% rule. -/
def rule2a : TaxRule := { name := "A9", rate := 9, inclusive := true }

/-- One 118-priced item; two enabled inclusive 9% rules. -/
def pay2 : Payload :=
  { items := [{ name := "A", qty := 1, unitPrice := 118 }]
    taxes := some [ rule2a, { name := "B9", rate := 9, inclusive := true } ] }

/-- A plain exclusive 10% rule on the default (discounted) base. -/
def rule3e : TaxRule := { name := "E", rate := 10 }

/-- One 118-priced item; an inclusive 18% rule followed by an exclusive 10%
rule, both on the discounted base. -/
def pay3 : Payload :=
  { items := [{ name := "A", qty := 1, unitPrice := 118 }]
    taxes := some [ { name := "I", rate := 18, inclusive := true }, rule3e ] }

/-- A 100-priced item carrying a 200 fixed discount. -/
def item4 : BillItem :=
  { name := "A", qty := 1, unitPrice := 100, discount := some ⟨Kind.fixed, 200⟩ }

/-- `item4` plus a 500 fixed global discount. -/
def pay4 : Payload :=
  { items := [item4]
    config := some { globalDiscount := some ⟨Kind.fixed, 500⟩ } }

/-- A valid item plus a charge whose `applyOn` is the unknown enum value
`""` (the empty string). -/
def pay7 : Payload :=
  { items := [{ name := "A", qty := 1, unitPrice := 100 }]
    charges := some [{ name := "C", kind := Kind.fixed, value := 1, applyOn := some "" }] }

/-- A 100-priced item in EUR with base USD and rate 1.1 (foreign = base × 1.1). -/
def pay8 : Payload :=
  { items := [{ name := "A", qty := 1, unitPrice := 100, currency := some "EUR" }]
    config := some { currency := some "USD", exchangeRates := some [("EUR", 11/10)] } }

/-! ## Claim C5 -/

/-- C5: for one item of price 100 with a first exclusive 10% non-compound rule
and a second 5% compound rule, `calculateBill` reports tax amounts 10 and 5.5
(5% of 110), total tax 15.5, and total 115.5. -/
theorem claim_C5_compound_ordering :
    (calculateBill pay5).map
      (fun r => (r.taxes.map (fun e => e.amountDisplay),
                 (r.taxes.map (fun e => e.amountDisplay)).sum, r.total))
      = Except.ok ([10, 11/2], 31/2, 231/2) := by
  with_unfolding_all rfl

/-! ## Claim C8 -/

/-- C8: an item priced 100 in a foreign currency with configured rate 1.1
normalizes to base amount 100/1.1 ≈ 90.91 (displayed 90.91), and the
`convertedTotals` entry for that currency (final total × rate) reproduces
100. -/
theorem claim_C8_currency_round_trip :
    (calculateBill pay8).map
      (fun r => (r.items.map (fun b => b.basePrice), r.total, r.convertedTotals))
      = Except.ok ([9091/100], 9091/100, some [("EUR", 100)]) := by
  with_unfolding_all rfl

/-! ## Claim C2 (counterexample and amended statement) -/

/-- C2 fails on the code: with two enabled inclusive 9% rules on gross 118 the
claimed proportional split of one combined extraction would report 9 per rule
(118 − 118/1.18 = 18, split 9/9), but `calculateBill` extracts each rule
independently from the same base and reports 9.74 per rule. -/
theorem claim_C2_counterexample :
    (calculateBill pay2).map (fun r => r.taxes.map (fun e => e.amountDisplay))
      = Except.ok [487/50, 487/50] ∧ ((487:ℚ)/50 ≠ 9) :=
  ⟨by with_unfolding_all rfl, by norm_num⟩

/-! ## Claim C3 (counterexample and amended statement) -/

/-- C3 fails on the code: after the inclusive 18% extraction on base 118
(amount 18), the following exclusive rule still sees effective base 118 — the
original tax-inclusive gross — not the net 100 = 118 − 18. -/
theorem claim_C3_counterexample :
    (calculateBill pay3).map
      (fun r => r.taxes.map (fun e => (e.effBase, e.amountInternal)))
      = Except.ok [(118, 18), (118, 59/5)] ∧ ((118:ℚ) ≠ 118 - 18) :=
  ⟨by with_unfolding_all rfl, by norm_num⟩

/-! ## Claim C4 (counterexample and amended statement) -/

/-- C4 fails on the code: for an item of gross 100 with a fixed discount of
200 the discount is clamped to 100 and the item total is 0, not negative; a
global discount of 500 on the remaining net 0 is clamped to 0 and the bill
total is 0, not negative. -/
theorem claim_C4_counterexample :
    (calculateBill pay4).map
      (fun r => (r.items.map (fun b => (b.itemDiscount, b.total)),
                 r.globalDiscount, r.total))
      = Except.ok ([(100, 0)], 0, 0) := by
  with_unfolding_all rfl

/-! ## Claim C7 (counterexample and amended statement) -/

/-- C7 fails on the code as stated: the empty string is an unknown
`applyOn` enum value (it is none of subtotal/taxableBase/netAfterDiscount),
yet the JS truthiness guard `charge.applyOn && ...` skips the check and
`calculateBill` returns a result instead of raising a ValidationFailure. -/
theorem claim_C7_counterexample : isOkB (calculateBill pay7) = true := by
  with_unfolding_all rfl

/-! ## Claim C1 -/

theorem taxEntriesOf_eq_produced (R : Resolved) :
    taxEntriesOf R = producedOf (taxCtxOf R) initTaxState R.taxesM := by
  unfold taxEntriesOf finalTaxStateOf
  rw [taxFold_entries]
  rfl

theorem totalExclusive_eq_sum (R : Resolved) :
    totalExclusiveTaxesOf R = internalRound
      (((taxEntriesOf R).filter (fun e => !e.inclusive)).map
        (fun e => e.amountInternal)).sum R.ip := by
  unfold totalExclusiveTaxesOf finalTaxStateOf
  rw [taxFold_totalExclusive, taxEntriesOf_eq_produced]
  norm_num [initTaxState]

theorem totalInclusive_eq_sum (R : Resolved) :
    totalInclusiveTaxesOf R = internalRound
      (((taxEntriesOf R).filter (fun e => e.inclusive)).map
        (fun e => e.amountInternal)).sum R.ip := by
  unfold totalInclusiveTaxesOf finalTaxStateOf
  rw [taxFold_totalInclusive, taxEntriesOf_eq_produced]
  norm_num [initTaxState]

theorem totalCharges_eq_sum (R : Resolved) :
    totalChargesOf R = internalRound
      (((chargeEntriesOf R).map (fun e => e.amountInternal)).sum) R.ip := by
  unfold totalChargesOf chargeEntriesOf
  rw [List.map_map]
  rfl

/-- C1: for every accepted payload the reported total is the display rounding
of: taxable base (net after all discounts) + the sum of the charge amounts +
the sum of the exclusive tax amounts.  The inclusive amounts (the
`e.inclusive` rows) are filtered out of that sum and are never added. -/
theorem claim_C1_total_composition :
    ∀ (p : Payload) (r : BillingResult), calculateBill p = Except.ok r →
      r.total = roundTo (internalRound
          (netAfterGlobalDiscountOf (resolve p) + totalChargesOf (resolve p) +
            totalExclusiveTaxesOf (resolve p)) (resolve p).ip) (resolve p).dp ∧
      r.taxableBase = roundTo (netAfterGlobalDiscountOf (resolve p)) (resolve p).dp ∧
      totalChargesOf (resolve p) = internalRound
        (((chargeEntriesOf (resolve p)).map (fun e => e.amountInternal)).sum) (resolve p).ip ∧
      totalExclusiveTaxesOf (resolve p) = internalRound
        (((taxEntriesOf (resolve p)).filter (fun e => !e.inclusive)).map
          (fun e => e.amountInternal)).sum (resolve p).ip := by
  intro p r h
  obtain ⟨hv, rfl⟩ := calc_ok h
  refine ⟨?_, rfl, totalCharges_eq_sum _, totalExclusive_eq_sum _⟩
  show roundTo (finalTotalOf (resolve p)) (resolve p).dp = _
  unfold finalTotalOf
  exact (isGrid_roundTo _ _).roundTo_eq

/-- Witness for C1 at the concrete payload `pay5`. -/
theorem claim_C1_witness :
    (toResult (resolve pay5)).total = roundTo (internalRound
        (netAfterGlobalDiscountOf (resolve pay5) + totalChargesOf (resolve pay5) +
          totalExclusiveTaxesOf (resolve pay5)) (resolve pay5).ip) (resolve pay5).dp ∧
      (toResult (resolve pay5)).taxableBase =
        roundTo (netAfterGlobalDiscountOf (resolve pay5)) (resolve pay5).dp ∧
      totalChargesOf (resolve pay5) = internalRound
        (((chargeEntriesOf (resolve pay5)).map (fun e => e.amountInternal)).sum) (resolve pay5).ip ∧
      totalExclusiveTaxesOf (resolve pay5) = internalRound
        (((taxEntriesOf (resolve pay5)).filter (fun e => !e.inclusive)).map
          (fun e => e.amountInternal)).sum (resolve pay5).ip :=
  claim_C1_total_composition pay5 (toResult (resolve pay5)) (by with_unfolding_all rfl)

/-! ## Claim C4, amended -/

theorem producedOf_amount_nonneg {c : TaxCtx} (hc : TaxCtxOk c) :
    ∀ (l : List TaxRule) (s : TaxState), StateOk c s → (∀ t ∈ l, 0 ≤ t.rate) →
      ∀ e ∈ producedOf c s l, 0 ≤ e.amountInternal := by
  intro l
  induction l with
  | nil => intro s _ _ e he; cases he
  | cons x xs ih =>
    intro s hs hl e he
    rcases List.mem_cons.mp he with rfl | he
    · exact (mkTaxEntry_amount_ok hc hs (hl x (List.mem_cons_self x xs))).1
    · exact ih (taxStep c s x) (taxStep_stateOk hc hs (hl x (List.mem_cons_self x xs)))
        (fun t ht => hl t (List.mem_cons_of_mem x ht)) e he

theorem totalExclusiveTaxes_nonneg {p : Payload} (hv : validatePayload p = none) :
    0 ≤ totalExclusiveTaxesOf (resolve p) := by
  rw [totalExclusive_eq_sum]
  apply internalRound_nonneg
  apply List.sum_nonneg
  intro x hx
  rcases List.mem_map.mp hx with ⟨e, he, rfl⟩
  have he2 := List.mem_of_mem_filter he
  rw [taxEntriesOf_eq_produced] at he2
  exact producedOf_amount_nonneg (taxCtxOk_of hv) _ _ (stateOk_init _)
    (taxesM_rate_nonneg hv) e he2

/-- C4, amended: discounts are clamped, not permissive.  For every accepted
payload the per-item discount is capped at the item's base price (so the net
price is never negative), the global discount is capped at the net after item
discounts, and the reported total is never negative. -/
theorem claim_C4_amended :
    ∀ (p : Payload) (r : BillingResult), calculateBill p = Except.ok r →
      (∀ it ∈ p.items,
        0 ≤ itemDiscountAbsOf (resolve p) it ∧
        itemDiscountAbsOf (resolve p) it ≤ basePriceOf (resolve p) it ∧
        0 ≤ netPriceOf (resolve p) it) ∧
      0 ≤ globalDiscountAbsOf (resolve p) ∧
      globalDiscountAbsOf (resolve p) ≤ netAfterItemDiscountsOf (resolve p) ∧
      0 ≤ netAfterGlobalDiscountOf (resolve p) ∧
      0 ≤ r.total := by
  intro p r h
  obtain ⟨hv, rfl⟩ := calc_ok h
  refine ⟨?_, (gdisc_nonneg_le hv).1, (gdisc_nonneg_le hv).2, nAGD_nonneg hv, ?_⟩
  · intro it hit
    exact ⟨(itemDiscount_nonneg_le hv hit).1, (itemDiscount_nonneg_le hv hit).2,
      netPrice_nonneg hv hit⟩
  · show 0 ≤ roundTo (finalTotalOf (resolve p)) (resolve p).dp
    apply roundTo_nonneg
    unfold finalTotalOf
    apply roundTo_nonneg
    unfold beforeRoundTotalOf
    apply internalRound_nonneg
    have h1 := nAGD_nonneg hv
    have h2 := totalCharges_nonneg hv
    have h3 := totalExclusiveTaxes_nonneg hv
    linarith

/-- Witness for the amended C4 at the concrete payload `pay4`. -/
theorem claim_C4_amended_witness :
    0 ≤ itemDiscountAbsOf (resolve pay4) item4 ∧
      itemDiscountAbsOf (resolve pay4) item4 ≤ basePriceOf (resolve pay4) item4 ∧
      0 ≤ netPriceOf (resolve pay4) item4 ∧
      0 ≤ globalDiscountAbsOf (resolve pay4) ∧
      globalDiscountAbsOf (resolve pay4) ≤ netAfterItemDiscountsOf (resolve pay4) ∧
      0 ≤ netAfterGlobalDiscountOf (resolve pay4) ∧
      0 ≤ (toResult (resolve pay4)).total := by
  have h := claim_C4_amended pay4 (toResult (resolve pay4)) (by with_unfolding_all rfl)
  have hi := h.1 item4 (List.mem_cons_self _ _)
  exact ⟨hi.1, hi.2.1, hi.2.2, h.2.1, h.2.2.1, h.2.2.2.1, h.2.2.2.2⟩

/-! ## mkTaxEntry branch characterizations -/

theorem mkTaxEntry_below_spec {c : TaxCtx} {s : TaxState} {t : TaxRule} {th : ℚ}
    (hth : t.threshold = some th) (hne : th ≠ 0) (hlt : effBaseOf c s t < th) :
    mkTaxEntry c s t = ⟨t.name, t.rate, t.inclusive, t.applyOn.getD "taxableBase",
      true, effBaseOf c s t, 0, 0⟩ := by
  unfold mkTaxEntry
  rw [hth]
  simp [hne, hlt]

theorem mkTaxEntry_inclusive_spec {c : TaxCtx} {s : TaxState} {t : TaxRule}
    (hnb : ∀ th, t.threshold = some th → ¬(th ≠ 0 ∧ effBaseOf c s t < th))
    (hincl : t.inclusive = true) :
    mkTaxEntry c s t = ⟨t.name, t.rate, true, t.applyOn.getD "taxableBase", false,
      effBaseOf c s t,
      internalRound (effBaseOf c s t -
        internalRound (effBaseOf c s t / (1 + t.rate / 100)) c.ip) c.ip,
      roundTo (internalRound (effBaseOf c s t -
        internalRound (effBaseOf c s t / (1 + t.rate / 100)) c.ip) c.ip) c.dp⟩ := by
  unfold mkTaxEntry
  rcases hth : t.threshold with _ | th
  · simp [hincl]
  · simp [hincl, hnb th hth]

theorem mkTaxEntry_exclusive_spec {c : TaxCtx} {s : TaxState} {t : TaxRule}
    (hnb : ∀ th, t.threshold = some th → ¬(th ≠ 0 ∧ effBaseOf c s t < th))
    (hincl : t.inclusive = false) :
    mkTaxEntry c s t = ⟨t.name, t.rate, false, t.applyOn.getD "taxableBase", false,
      effBaseOf c s t,
      internalRound (effBaseOf c s t * (t.rate / 100)) c.ip,
      roundTo (internalRound (effBaseOf c s t * (t.rate / 100)) c.ip) c.dp⟩ := by
  unfold mkTaxEntry
  rcases hth : t.threshold with _ | th
  · simp [hincl]
  · simp [hincl, hnb th hth]

theorem taxStep_below_totals {c : TaxCtx} {s : TaxState} {t : TaxRule}
    (h : (mkTaxEntry c s t).below = true) :
    (taxStep c s t).totalExclusive = s.totalExclusive ∧
      (taxStep c s t).totalInclusive = s.totalInclusive ∧
      (taxStep c s t).totalTaxSoFar = s.totalTaxSoFar := by
  have h0 := mkTaxEntry_below_amount c s t h
  unfold taxStep
  refine ⟨?_, ?_, ?_⟩ <;> dsimp only <;> simp [h, h0]

/-! ## Claim C6 -/

/-- C6: whenever a rule with a threshold sees an effective base below that
threshold, the breakdown row at the rule's position is present (the breakdown
keeps one row per rule), carries amount 0 with the below-threshold marker and
the rule's name, and the rule changes none of the three running tax totals. -/
theorem claim_C6_threshold_below :
    ∀ (p : Payload) (r : BillingResult) (i : ℕ) (t : TaxRule) (th : ℚ),
      calculateBill p = Except.ok r →
      (resolve p).taxesM[i]? = some t →
      t.threshold = some th →
      effBaseAt (resolve p) i < th →
      r.taxes[i]?.map (fun e => (e.below, e.amountInternal, e.amountDisplay, e.name))
          = some (true, 0, 0, t.name) ∧
      r.taxes.length = (resolve p).taxesM.length ∧
      (stateAfterOf (resolve p) (i + 1)).totalExclusive
          = (stateAfterOf (resolve p) i).totalExclusive ∧
      (stateAfterOf (resolve p) (i + 1)).totalInclusive
          = (stateAfterOf (resolve p) i).totalInclusive ∧
      (stateAfterOf (resolve p) (i + 1)).totalTaxSoFar
          = (stateAfterOf (resolve p) i).totalTaxSoFar := by
  intro p r i t th h hget hth hlt
  obtain ⟨hv, rfl⟩ := calc_ok h
  have heff : effBaseAt (resolve p) i
      = effBaseOf (taxCtxOf (resolve p)) (stateAfterOf (resolve p) i) t := by
    unfold effBaseAt
    rw [hget]
  have hnn := effBaseAt_nonneg hv i
  have hne : th ≠ 0 := ne_of_gt (lt_of_le_of_lt hnn hlt)
  rw [heff] at hlt
  have hspec := mkTaxEntry_below_spec hth hne hlt
  have hb : (mkTaxEntry (taxCtxOf (resolve p)) (stateAfterOf (resolve p) i) t).below = true := by
    rw [hspec]
  have hgetE := taxEntriesOf_get hget
  have hr : (toResult (resolve p)).taxes = taxEntriesOf (resolve p) := rfl
  refine ⟨?_, ?_, ?_, ?_, ?_⟩
  · rw [hr, hgetE, hspec]
    rfl
  · rw [hr]
    exact taxEntries_length _
  · rw [stateAfter_succ hget]
    exact (taxStep_below_totals hb).1
  · rw [stateAfter_succ hget]
    exact (taxStep_below_totals hb).2.1
  · rw [stateAfter_succ hget]
    exact (taxStep_below_totals hb).2.2

/-- The threshold rule of the C6 witness bill. -/
def rule6 : TaxRule := { name := "T", rate := 10, threshold := some 100 }

/-- One 50-priced item with `rule6` (base 50 below threshold 100). -/
def pay6 : Payload :=
  { items := [{ name := "A", qty := 1, unitPrice := 50 }]
    taxes := some [rule6] }

/-- Witness for C6: base 50, threshold 100 — amount 0, marked below threshold,
still present in the breakdown. -/
theorem claim_C6_witness :
    effBaseAt (resolve pay6) 0 < 100 ∧
      (toResult (resolve pay6)).taxes[0]?.map
        (fun e => (e.below, e.amountInternal, e.amountDisplay, e.name))
        = some (true, 0, 0, rule6.name) ∧
      (toResult (resolve pay6)).taxes.length = (resolve pay6).taxesM.length := by
  have hlt : effBaseAt (resolve pay6) 0 < 100 := by
    have he : effBaseAt (resolve pay6) 0 = 50 := by with_unfolding_all rfl
    rw [he]
    norm_num
  have h := claim_C6_threshold_below pay6 (toResult (resolve pay6)) 0 rule6 100
    (by with_unfolding_all rfl) (by with_unfolding_all rfl) rfl hlt
  exact ⟨hlt, h.1, h.2.1⟩

/-! ## Claim C2, amended -/

/-- C2, amended: there is no combined inclusive rate and no proportional
apportionment.  Each inclusive rule `i` is extracted independently from its
own effective base `B` as `amount = round(B − round(B / (1 + rate/100)))`,
and the reported inclusive total is the (rounded) plain sum of these
independent per-rule amounts. -/
theorem claim_C2_amended :
    ∀ (p : Payload) (r : BillingResult) (i : ℕ) (t : TaxRule),
      calculateBill p = Except.ok r →
      (resolve p).taxesM[i]? = some t →
      t.inclusive = true →
      (∀ th, t.threshold = some th → ¬(th ≠ 0 ∧ effBaseAt (resolve p) i < th)) →
      r.taxes[i]?.map (fun e => e.amountInternal) = some
        (internalRound (effBaseAt (resolve p) i -
          internalRound (effBaseAt (resolve p) i / (1 + t.rate / 100)) (resolve p).ip)
          (resolve p).ip) ∧
      totalInclusiveTaxesOf (resolve p) = internalRound
        (((taxEntriesOf (resolve p)).filter (fun e => e.inclusive)).map
          (fun e => e.amountInternal)).sum (resolve p).ip := by
  intro p r i t h hget hincl hnb
  obtain ⟨-, rfl⟩ := calc_ok h
  have heff : effBaseAt (resolve p) i
      = effBaseOf (taxCtxOf (resolve p)) (stateAfterOf (resolve p) i) t := by
    unfold effBaseAt
    rw [hget]
  rw [heff] at hnb ⊢
  have hspec := mkTaxEntry_inclusive_spec hnb hincl
  have hgetE := taxEntriesOf_get hget
  refine ⟨?_, totalInclusive_eq_sum _⟩
  have hr : (toResult (resolve p)).taxes = taxEntriesOf (resolve p) := rfl
  rw [hr, hgetE, hspec]
  rfl

/-- Witness for the amended C2 at `pay2`, rule 0. -/
theorem claim_C2_amended_witness :
    (toResult (resolve pay2)).taxes[0]?.map (fun e => e.amountInternal) = some
      (internalRound (effBaseAt (resolve pay2) 0 -
        internalRound (effBaseAt (resolve pay2) 0 / (1 + rule2a.rate / 100)) (resolve pay2).ip)
        (resolve pay2).ip) ∧
    totalInclusiveTaxesOf (resolve pay2) = internalRound
      (((taxEntriesOf (resolve pay2)).filter (fun e => e.inclusive)).map
        (fun e => e.amountInternal)).sum (resolve pay2).ip := by
  have h := claim_C2_amended pay2 (toResult (resolve pay2)) 0 rule2a
    (by with_unfolding_all rfl) (by with_unfolding_all rfl) rfl
    (by intro th hth; simp [rule2a] at hth)
  exact h

/-! ## Claim C3, amended -/

/-- C3, amended: the running base is never replaced by the extracted net.
Any non-compound rule on the default `taxableBase` base — in particular an
exclusive rule following an inclusive one — sees exactly
`netAfterGlobalDiscount`, the original (tax-inclusive) discounted gross. -/
theorem claim_C3_amended :
    ∀ (p : Payload) (i : ℕ) (t : TaxRule),
      (resolve p).taxesM[i]? = some t →
      t.compound = false →
      t.applyOn.getD "taxableBase" = "taxableBase" →
      effBaseAt (resolve p) i = netAfterGlobalDiscountOf (resolve p) := by
  intro p i t hget hcomp happ
  unfold effBaseAt
  rw [hget]
  dsimp only
  unfold effBaseOf taxBaseOf
  rw [happ, hcomp]
  norm_num
  rw [if_neg (by decide : ¬("taxableBase" = "subtotal"))]
  rfl

/-- Witness for the amended C3 at `pay3`, rule 1 (the exclusive rule after the
inclusive extraction). -/
theorem claim_C3_amended_witness :
    effBaseAt (resolve pay3) 1 = netAfterGlobalDiscountOf (resolve pay3) :=
  claim_C3_amended pay3 1 rule3e (by with_unfolding_all rfl) rfl rfl

/-! ## Claim C7, amended -/

/-- The malformedness conditions listed by the claim, with the one correction
the code forces: an unknown `applyOn` (or preset name) is only rejected when
it is non-empty, because the source guards the check with JS truthiness. -/
def Malformed (p : Payload) : Prop :=
  p.items = [] ∨
  (∃ it ∈ p.items, it.qty < 0 ∨ it.unitPrice < 0 ∨
    (∃ d, it.discount = some d ∧ d.kind = Kind.percent ∧
      (d.value < 0 ∨ 100 < d.value))) ∨
  (∃ ch ∈ p.charges.getD [], ∃ s, ch.applyOn = some s ∧ s ≠ "" ∧
    chargeApplyOnValues.contains s = false) ∨
  (∃ t ∈ p.taxes.getD [], ∃ s, t.applyOn = some s ∧ s ≠ "" ∧
    taxApplyOnValues.contains s = false) ∨
  (∃ s, (p.config.getD emptyConfig).taxPreset = some s ∧ s ≠ "" ∧
    presetLookup s = none) ∨
  (∃ m, (p.config.getD emptyConfig).exchangeRates = some m ∧ ∃ pr ∈ m, pr.2 ≤ 0)

/-- C7, amended: every payload that is malformed in one of the listed ways —
empty item list, negative quantity or unit price, discount percent outside
[0,100], unknown non-empty `applyOn` value, unknown non-empty preset name, or
non-positive exchange rate — makes `calculateBill` return a `ValidationError`
carrying a non-empty field path and a non-empty message, and no result is
computed.  (As stated the claim fails: an unknown empty-string `applyOn`
slips through the truthiness guard, see the counterexample.) -/
theorem claim_C7_amended :
    ∀ p : Payload, Malformed p →
      ∃ e : VErr, calculateBill p = Except.error e ∧
        0 < e.field.length ∧ 0 < e.message.length := by
  intro p hm
  cases hv : validatePayload p with
  | some e =>
    exact ⟨e, calc_error_of_validate hv,
      (validate_some_nonempty hv).1, (validate_some_nonempty hv).2⟩
  | none =>
    exfalso
    obtain ⟨hne, hit, hch, htx, hcfg⟩ := validate_none_props hv
    rcases hm with h | h | h | h | h | h
    · exact hne h
    · obtain ⟨it, hmem, hbad⟩ := h
      obtain ⟨hq, hup, hd⟩ := hit it hmem
      rcases hbad with h1 | h1 | h1
      · linarith
      · linarith
      · obtain ⟨d, hdm, hk, hv2⟩ := h1
        obtain ⟨hlo, hhi⟩ := (hd d hdm).1 hk
        rcases hv2 with h2 | h2 <;> linarith
    · obtain ⟨ch, hmem, s, hs, hsne, hco⟩ := h
      have := (hch ch hmem).2 s hs hsne
      rw [this] at hco
      cases hco
    · obtain ⟨t, hmem, s, hs, hsne, hco⟩ := h
      have := (htx t hmem).2 s hs hsne
      rw [this] at hco
      cases hco
    · obtain ⟨s, hs, hsne, hlk⟩ := h
      exact hcfg.2.2 s hs hsne hlk
    · obtain ⟨m, hm2, pr, hpr, hle⟩ := h
      have := hcfg.2.1 m hm2 pr hpr
      linarith

/-- The empty-item-list payload. -/
def payEmpty : Payload := { items := [] }

/-- Witness for the amended C7: the empty item list is malformed, and
`calculateBill` on it does not return a result. -/
theorem claim_C7_amended_witness :
    Malformed payEmpty ∧ isOkB (calculateBill payEmpty) = false := by
  have hm : Malformed payEmpty := Or.inl rfl
  refine ⟨hm, ?_⟩
  obtain ⟨e, he, -, -⟩ := claim_C7_amended payEmpty hm
  rw [he]
  rfl

/-! ## Congruence machinery: replacing one item of the list -/

/-- Replace the items list of a resolved bill. -/
def setItems (R : Resolved) (l : List BillItem) : Resolved := { R with items := l }

theorem basePriceOf_setItems (R : Resolved) (l : List BillItem) (it : BillItem) :
    basePriceOf (setItems R l) it = basePriceOf R it := rfl

theorem itemDiscountAbsOf_setItems (R : Resolved) (l : List BillItem) (it : BillItem) :
    itemDiscountAbsOf (setItems R l) it = itemDiscountAbsOf R it := rfl

theorem mkItemBreakdown_setItems (R : Resolved) (l : List BillItem) (n : ℕ) (it : BillItem) :
    mkItemBreakdown (setItems R l) n it = mkItemBreakdown R n it := rfl

theorem mapCongr {α β : Type} (f g : α → β) (h : ∀ a, f a = g a) :
    ∀ l : List α, l.map f = l.map g := by
  intro l
  induction l with
  | nil => rfl
  | cons x xs ih => simp [h x, ih]

theorem subtotalOf_setItems (R : Resolved) (l : List BillItem) :
    subtotalOf (setItems R l) = internalRound ((l.map (basePriceOf R)).sum) R.ip := by
  show internalRound ((l.map (basePriceOf (setItems R l))).sum) R.ip = _
  rw [mapCongr _ _ (basePriceOf_setItems R l) l]

theorem totalItemDiscountOf_setItems (R : Resolved) (l : List BillItem) :
    totalItemDiscountOf (setItems R l)
      = internalRound ((l.map (itemDiscountAbsOf R)).sum) R.ip := by
  show internalRound ((l.map (itemDiscountAbsOf (setItems R l))).sum) R.ip = _
  rw [mapCongr _ _ (itemDiscountAbsOf_setItems R l) l]

theorem itemBreakdownsFrom_setItems (R : Resolved) (li : List BillItem) :
    ∀ (l : List BillItem) (n : ℕ),
      itemBreakdownsFrom (setItems R li) n l = itemBreakdownsFrom R n l := by
  intro l
  induction l with
  | nil => intro n; rfl
  | cons x xs ih =>
    intro n
    show mkItemBreakdown (setItems R li) n x :: itemBreakdownsFrom (setItems R li) (n + 1) xs = _
    rw [mkItemBreakdown_setItems, ih]
    rfl

theorem itemBreakdownsFrom_append (R : Resolved) (l₁ l₂ : List BillItem) :
    ∀ n : ℕ, itemBreakdownsFrom R n (l₁ ++ l₂)
      = itemBreakdownsFrom R n l₁ ++ itemBreakdownsFrom R (n + l₁.length) l₂ := by
  induction l₁ with
  | nil => intro n; simp [itemBreakdownsFrom]
  | cons x xs ih =>
    intro n
    show mkItemBreakdown R n x :: itemBreakdownsFrom R (n + 1) (xs ++ l₂) = _
    rw [ih (n + 1)]
    simp only [itemBreakdownsFrom, List.cons_append, List.length_cons]
    rw [show n + 1 + xs.length = n + (xs.length + 1) from by omega]

/-- Bill-level quantities only depend on the resolved record through the
subtotal, the total item discount and the non-item fields. -/
theorem pipeline_congr (R₂ R₁ : Resolved)
    (hdp : R₂.dp = R₁.dp) (hip : R₂.ip = R₁.ip) (hro : R₂.roundOff = R₁.roundOff)
    (hrates : R₂.rates = R₁.rates) (hgd : R₂.gdisc = R₁.gdisc)
    (hch : R₂.charges = R₁.charges) (htx : R₂.taxesM = R₁.taxesM)
    (hsub : subtotalOf R₂ = subtotalOf R₁)
    (htid : totalItemDiscountOf R₂ = totalItemDiscountOf R₁) :
    netAfterGlobalDiscountOf R₂ = netAfterGlobalDiscountOf R₁ ∧
    globalDiscountAbsOf R₂ = globalDiscountAbsOf R₁ ∧
    chargeEntriesOf R₂ = chargeEntriesOf R₁ ∧
    totalChargesOf R₂ = totalChargesOf R₁ ∧
    taxEntriesOf R₂ = taxEntriesOf R₁ ∧
    totalInclusiveTaxesOf R₂ = totalInclusiveTaxesOf R₁ ∧
    totalExclusiveTaxesOf R₂ = totalExclusiveTaxesOf R₁ ∧
    finalTotalOf R₂ = finalTotalOf R₁ ∧
    roundDiffOf R₂ = roundDiffOf R₁ ∧
    convertedTotalsOf R₂ = convertedTotalsOf R₁ ∧
    netAfterItemDiscountsOf R₂ = netAfterItemDiscountsOf R₁ := by
  have hnaid : netAfterItemDiscountsOf R₂ = netAfterItemDiscountsOf R₁ := by
    unfold netAfterItemDiscountsOf
    rw [hsub, htid, hip]
  have hgda : globalDiscountAbsOf R₂ = globalDiscountAbsOf R₁ := by
    unfold globalDiscountAbsOf
    simp only [hgd, hnaid, hip]
  have hnagd : netAfterGlobalDiscountOf R₂ = netAfterGlobalDiscountOf R₁ := by
    unfold netAfterGlobalDiscountOf
    rw [hnaid, hgda, hip]
  have hcb : ∀ ch, chargeBaseOf R₂ ch = chargeBaseOf R₁ ch := by
    intro ch
    unfold chargeBaseOf
    simp only [hsub, hnagd]
  have hca : ∀ ch, chargeAmountOf R₂ ch = chargeAmountOf R₁ ch := by
    intro ch
    unfold chargeAmountOf
    simp only [hcb, hip]
  have hce : chargeEntriesOf R₂ = chargeEntriesOf R₁ := by
    unfold chargeEntriesOf
    rw [hch]
    simp only [hca, hdp]
  have htc : totalChargesOf R₂ = totalChargesOf R₁ := by
    unfold totalChargesOf
    rw [hch, hip, mapCongr _ _ hca]
  have hctx : taxCtxOf R₂ = taxCtxOf R₁ := by
    unfold taxCtxOf
    rw [hsub, hnagd, htc, hip, hdp]
  have hte : taxEntriesOf R₂ = taxEntriesOf R₁ := by
    unfold taxEntriesOf finalTaxStateOf
    rw [hctx, htx]
  have hti : totalInclusiveTaxesOf R₂ = totalInclusiveTaxesOf R₁ := by
    unfold totalInclusiveTaxesOf finalTaxStateOf
    rw [hctx, htx, hip]
  have htex : totalExclusiveTaxesOf R₂ = totalExclusiveTaxesOf R₁ := by
    unfold totalExclusiveTaxesOf finalTaxStateOf
    rw [hctx, htx, hip]
  have hbrt : beforeRoundTotalOf R₂ = beforeRoundTotalOf R₁ := by
    unfold beforeRoundTotalOf
    rw [hnagd, htc, htex, hip]
  have hft : finalTotalOf R₂ = finalTotalOf R₁ := by
    unfold finalTotalOf
    rw [hbrt, hdp]
  have hrd : roundDiffOf R₂ = roundDiffOf R₁ := by
    unfold roundDiffOf
    rw [hro, hft, hbrt, hip]
  have hconv : convertedTotalsOf R₂ = convertedTotalsOf R₁ := by
    unfold convertedTotalsOf
    simp only [hrates, hft, hdp]
  exact ⟨hnagd, hgda, hce, htc, hte, hti, htex, hft, hrd, hconv, hnaid⟩

/-! ## Validator congruence for item replacement -/

theorem firstErr_assoc (a b c : Option VErr) :
    firstErr (firstErr a b) c = firstErr a (firstErr b c) := by
  cases a <;> simp [firstErr]

theorem checkItems_split (it : BillItem) (l₂ : List BillItem) :
    ∀ (l₁ : List BillItem) (n : ℕ),
      checkItems n (l₁ ++ it :: l₂) = firstErr (checkItems n l₁)
        (firstErr (itemCheck (n + l₁.length) it) (checkItems (n + l₁.length + 1) l₂)) := by
  intro l₁
  induction l₁ with
  | nil => intro n; simp [checkItems, firstErr]
  | cons x xs ih =>
    intro n
    show firstErr (itemCheck n x) (checkItems (n + 1) (xs ++ it :: l₂)) = _
    rw [ih (n + 1), ← firstErr_assoc]
    simp only [checkItems, List.length_cons]
    rw [show n + 1 + xs.length = n + (xs.length + 1) from by omega]

/-! ## Claim C10 -/

/-- C10: an item tagged with a foreign currency that has no entry in the
exchange-rate table is neither converted nor rejected — its literal unit price
is used, and the whole computation (validation included) is the same as if
the item carried no currency tag at all. -/
theorem claim_C10_missing_rate_identity :
    ∀ (cfg : Option BillingConfig) (chs : Option (List Charge))
      (txs : Option (List TaxRule)) (pre post : List BillItem)
      (it : BillItem) (c : String),
      it.currency = some c →
      lookupRate (resolve ⟨cfg, pre ++ it :: post, chs, txs⟩).rates c = none →
      effUnitPrice (resolve ⟨cfg, pre ++ it :: post, chs, txs⟩) it = it.unitPrice ∧
      calculateBill ⟨cfg, pre ++ it :: post, chs, txs⟩
        = calculateBill ⟨cfg, pre ++ { it with currency := none } :: post, chs, txs⟩ := by
  intro cfg chs txs pre post it c hcur hlk
  have heffU : effUnitPrice (resolve ⟨cfg, pre ++ it :: post, chs, txs⟩) it
      = it.unitPrice := by
    unfold effUnitPrice
    rw [hcur]
    dsimp only
    split_ifs with h1
    · rw [hlk]
    · rfl
  refine ⟨heffU, ?_⟩
  set R₁ := resolve ⟨cfg, pre ++ it :: post, chs, txs⟩ with hR₁
  set it2 := { it with currency := none } with hit2
  have heffU2 : effUnitPrice R₁ it2 = it.unitPrice := rfl
  have hbp : basePriceOf R₁ it2 = basePriceOf R₁ it := by
    unfold basePriceOf
    rw [heffU2, heffU]
  have hdisc : itemDiscountAbsOf R₁ it2 = itemDiscountAbsOf R₁ it := by
    unfold itemDiscountAbsOf
    simp only [hbp]
  have hnet : netPriceOf R₁ it2 = netPriceOf R₁ it := by
    unfold netPriceOf
    rw [hbp, hdisc]
  have hta : taxableAmountOf R₁ it2 = taxableAmountOf R₁ it := by
    unfold taxableAmountOf
    rw [hnet]
  have hite : itemTaxEntriesOf R₁ it2 = itemTaxEntriesOf R₁ it := by
    unfold itemTaxEntriesOf
    simp only [hta]
  have htot : itemTotalOf R₁ it2 = itemTotalOf R₁ it := by
    unfold itemTotalOf itemTaxesSumOf
    rw [hnet, hite]
  have hmk : ∀ n, mkItemBreakdown R₁ n it2 = mkItemBreakdown R₁ n it := by
    intro n
    unfold mkItemBreakdown
    rw [hbp, hdisc, hnet, hta, hite, htot]
  have hsub : subtotalOf (resolve ⟨cfg, pre ++ it2 :: post, chs, txs⟩) = subtotalOf R₁ := by
    show subtotalOf (setItems R₁ (pre ++ it2 :: post))
        = subtotalOf (setItems R₁ (pre ++ it :: post))
    rw [subtotalOf_setItems, subtotalOf_setItems]
    simp [hbp]
  have htid : totalItemDiscountOf (resolve ⟨cfg, pre ++ it2 :: post, chs, txs⟩)
      = totalItemDiscountOf R₁ := by
    show totalItemDiscountOf (setItems R₁ (pre ++ it2 :: post))
        = totalItemDiscountOf (setItems R₁ (pre ++ it :: post))
    rw [totalItemDiscountOf_setItems, totalItemDiscountOf_setItems]
    simp [hdisc]
  obtain ⟨hnagd, hgda, hce, htc, hte, hti, htex, hft, hrd, hconv, hnaid⟩ :=
    pipeline_congr (resolve ⟨cfg, pre ++ it2 :: post, chs, txs⟩) R₁
      rfl rfl rfl rfl rfl rfl rfl hsub htid
  have hbds : itemBreakdownsOf (resolve ⟨cfg, pre ++ it2 :: post, chs, txs⟩)
      = itemBreakdownsOf R₁ := by
    show itemBreakdownsFrom (setItems R₁ (pre ++ it2 :: post)) 0 (pre ++ it2 :: post)
        = itemBreakdownsFrom (setItems R₁ (pre ++ it :: post)) 0 (pre ++ it :: post)
    rw [itemBreakdownsFrom_setItems, itemBreakdownsFrom_setItems,
        itemBreakdownsFrom_append, itemBreakdownsFrom_append]
    simp only [itemBreakdownsFrom]
    rw [hmk (0 + pre.length)]
  have htr : toResult (resolve ⟨cfg, pre ++ it2 :: post, chs, txs⟩) = toResult R₁ := by
    unfold toResult
    rw [hsub, htid, hgda, hnagd, hce, hte, hrd, hft, hconv, hbds]
    rfl
  have hval : validatePayload ⟨cfg, pre ++ it2 :: post, chs, txs⟩
      = validatePayload ⟨cfg, pre ++ it :: post, chs, txs⟩ := by
    unfold validatePayload
    dsimp only
    rw [checkItems_split, checkItems_split,
        show itemCheck (0 + pre.length) it2 = itemCheck (0 + pre.length) it from rfl]
    have h1 : (pre ++ it2 :: post).isEmpty = (pre ++ it :: post).isEmpty := by
      cases pre <;> rfl
    rw [h1]
  show calculateBill _ = calculateBill ⟨cfg, pre ++ it2 :: post, chs, txs⟩
  unfold calculateBill
  rw [hval, htr]

/-- A spare-currency item used by the C10 witness. -/
def item10 : BillItem := { name := "A", qty := 1, unitPrice := 100, currency := some "EUR" }

/-- Config of the C10 witness: base USD, only a GBP rate. -/
def cfg10 : BillingConfig := { currency := some "USD", exchangeRates := some [("GBP", 2)] }

/-- Witness for C10: EUR item, only a GBP rate configured — literal unit price
used and the run equals the run without the currency tag. -/
theorem claim_C10_witness :
    effUnitPrice (resolve ⟨some cfg10, [item10], none, none⟩) item10 = item10.unitPrice ∧
    calculateBill ⟨some cfg10, [item10], none, none⟩
      = calculateBill ⟨some cfg10, [{ item10 with currency := none }], none, none⟩ := by
  have h := claim_C10_missing_rate_identity (some cfg10)
    none none [] [] item10 "EUR" rfl (by with_unfolding_all rfl)
  exact h

/-! ## Claim C9 -/

/-- The per-item breakdown fields that do not mention the tax attribution. -/
structure ItemStable where
  index : ℕ
  sku : Option String
  name : String
  qty : ℚ
  unitPrice : ℚ
  basePrice : ℚ
  itemDiscount : ℚ
  netPrice : ℚ
deriving DecidableEq, Repr

/-- Forget a breakdown row's taxableAmount/taxesApplied/total. -/
def stableOf (b : ItemBreakdown) : ItemStable :=
  ⟨b.index, b.sku, b.name, b.qty, b.unitPrice, b.basePrice, b.itemDiscount, b.netPrice⟩

/-- Everything in a result except the per-item tax attribution fields. -/
structure BillView where
  currency : String
  subtotal : ℚ
  totalItemDiscount : ℚ
  globalDiscount : ℚ
  taxableBase : ℚ
  charges : List ChargeEntry
  taxes : List TaxEntry
  roundOff : ℚ
  total : ℚ
  convertedTotals : Option (List (String × ℚ))
  itemStables : List ItemStable
deriving DecidableEq, Repr

/-- Project a result to its taxFree-insensitive part. -/
def viewOf (r : BillingResult) : BillView :=
  ⟨r.currency, r.subtotal, r.totalItemDiscount, r.globalDiscount, r.taxableBase,
   r.charges, r.taxes, r.roundOff, r.total, r.convertedTotals, r.items.map stableOf⟩

/-- C9: flipping one item's `taxFree` flag changes nothing outside that item's
own `taxableAmount` / `taxesApplied` / `total` breakdown fields: the whole
run projected through `viewOf` (validation outcome, subtotal, discounts,
taxable base, bill-level charge and tax breakdowns, total, converted totals,
and every item's stable fields) is identical, the breakdown lists differ only
at the flipped item's position, and that row keeps all its stable fields. -/
theorem claim_C9_taxfree_noninterference :
    ∀ (cfg : Option BillingConfig) (chs : Option (List Charge))
      (txs : Option (List TaxRule)) (pre post : List BillItem) (it : BillItem),
      Except.map viewOf
          (calculateBill ⟨cfg, pre ++ { it with taxFree := !it.taxFree } :: post, chs, txs⟩)
        = Except.map viewOf (calculateBill ⟨cfg, pre ++ it :: post, chs, txs⟩) ∧
      itemBreakdownsOf (resolve ⟨cfg, pre ++ { it with taxFree := !it.taxFree } :: post, chs, txs⟩)
        = itemBreakdownsFrom (resolve ⟨cfg, pre ++ it :: post, chs, txs⟩) 0 pre
          ++ mkItemBreakdown (resolve ⟨cfg, pre ++ it :: post, chs, txs⟩) pre.length
              { it with taxFree := !it.taxFree }
          :: itemBreakdownsFrom (resolve ⟨cfg, pre ++ it :: post, chs, txs⟩) (pre.length + 1) post ∧
      itemBreakdownsOf (resolve ⟨cfg, pre ++ it :: post, chs, txs⟩)
        = itemBreakdownsFrom (resolve ⟨cfg, pre ++ it :: post, chs, txs⟩) 0 pre
          ++ mkItemBreakdown (resolve ⟨cfg, pre ++ it :: post, chs, txs⟩) pre.length it
          :: itemBreakdownsFrom (resolve ⟨cfg, pre ++ it :: post, chs, txs⟩) (pre.length + 1) post ∧
      stableOf (mkItemBreakdown (resolve ⟨cfg, pre ++ it :: post, chs, txs⟩) pre.length
          { it with taxFree := !it.taxFree })
        = stableOf (mkItemBreakdown (resolve ⟨cfg, pre ++ it :: post, chs, txs⟩) pre.length it) := by
  intro cfg chs txs pre post it
  set R₁ := resolve ⟨cfg, pre ++ it :: post, chs, txs⟩ with hR₁
  set it2 : BillItem := { it with taxFree := !it.taxFree } with hit2
  have hbp : basePriceOf R₁ it2 = basePriceOf R₁ it := rfl
  have hdisc : itemDiscountAbsOf R₁ it2 = itemDiscountAbsOf R₁ it := rfl
  have hstable : stableOf (mkItemBreakdown R₁ pre.length it2)
      = stableOf (mkItemBreakdown R₁ pre.length it) := rfl
  have hsub : subtotalOf (resolve ⟨cfg, pre ++ it2 :: post, chs, txs⟩) = subtotalOf R₁ := by
    show subtotalOf (setItems R₁ (pre ++ it2 :: post))
        = subtotalOf (setItems R₁ (pre ++ it :: post))
    rw [subtotalOf_setItems, subtotalOf_setItems]
    simp [hbp]
  have htid : totalItemDiscountOf (resolve ⟨cfg, pre ++ it2 :: post, chs, txs⟩)
      = totalItemDiscountOf R₁ := by
    show totalItemDiscountOf (setItems R₁ (pre ++ it2 :: post))
        = totalItemDiscountOf (setItems R₁ (pre ++ it :: post))
    rw [totalItemDiscountOf_setItems, totalItemDiscountOf_setItems]
    simp [hdisc]
  obtain ⟨hnagd, hgda, hce, htc, hte, hti, htex, hft, hrd, hconv, hnaid⟩ :=
    pipeline_congr (resolve ⟨cfg, pre ++ it2 :: post, chs, txs⟩) R₁
      rfl rfl rfl rfl rfl rfl rfl hsub htid
  have hbds2 : itemBreakdownsOf (resolve ⟨cfg, pre ++ it2 :: post, chs, txs⟩)
      = itemBreakdownsFrom R₁ 0 pre ++ mkItemBreakdown R₁ pre.length it2
        :: itemBreakdownsFrom R₁ (pre.length + 1) post := by
    show itemBreakdownsFrom (setItems R₁ (pre ++ it2 :: post)) 0 (pre ++ it2 :: post) = _
    rw [itemBreakdownsFrom_setItems, itemBreakdownsFrom_append]
    simp only [itemBreakdownsFrom, Nat.zero_add]
  have hbds1 : itemBreakdownsOf R₁
      = itemBreakdownsFrom R₁ 0 pre ++ mkItemBreakdown R₁ pre.length it
        :: itemBreakdownsFrom R₁ (pre.length + 1) post := by
    show itemBreakdownsFrom (setItems R₁ (pre ++ it :: post)) 0 (pre ++ it :: post) = _
    rw [itemBreakdownsFrom_setItems, itemBreakdownsFrom_append]
    simp only [itemBreakdownsFrom, Nat.zero_add]
  have hstables : (itemBreakdownsOf (resolve ⟨cfg, pre ++ it2 :: post, chs, txs⟩)).map stableOf
      = (itemBreakdownsOf R₁).map stableOf := by
    rw [hbds2, hbds1]
    simp [hstable]
  have hview : viewOf (toResult (resolve ⟨cfg, pre ++ it2 :: post, chs, txs⟩))
      = viewOf (toResult R₁) := by
    unfold viewOf toResult
    dsimp only
    rw [hsub, htid, hgda, hnagd, hce, hte, hrd, hft, hconv, hstables]
    rfl
  have hval : validatePayload ⟨cfg, pre ++ it2 :: post, chs, txs⟩
      = validatePayload ⟨cfg, pre ++ it :: post, chs, txs⟩ := by
    unfold validatePayload
    dsimp only
    rw [checkItems_split, checkItems_split,
        show itemCheck (0 + pre.length) it2 = itemCheck (0 + pre.length) it from rfl]
    have h1 : (pre ++ it2 :: post).isEmpty = (pre ++ it :: post).isEmpty := by
      cases pre <;> rfl
    rw [h1]
  refine ⟨?_, hbds2, hbds1, hstable⟩
  unfold calculateBill
  rw [hval]
  cases hv : validatePayload ⟨cfg, pre ++ it :: post, chs, txs⟩ with
  | some e => rfl
  | none =>
    dsimp only
    split_ifs with h1
    · rfl
    · show Except.map viewOf (Except.ok (toResult (resolve ⟨cfg, pre ++ it2 :: post, chs, txs⟩)))
        = Except.map viewOf (Except.ok (toResult R₁))
      simp only [Except.map]
      rw [hview]

end Billjs
